import Mathlib

/-!
Verification development for the sub-agent execution engine
(`packages/core/src/agents/executor.ts`, `utils/toolCallParser.ts`,
`utils/json.ts`, `common/abort-signal-manager.ts`).

The TypeScript sources are shallowly embedded:

* JSON values (`unknown` data travelling through tool calls) are modelled by
  `JValue`.  JavaScript numbers are modelled as arbitrary-precision integers;
  fractional and exponent literals are outside the model.
* `JSON.stringify` (compact, and with `null, 2` indentation) and `JSON.parse`
  are modelled by executable Lean functions over `List Char`.
* Stateful executor code becomes explicit state passing; the asynchronous tool
  layer (`executeToolCall`) and the summarizer are oracle functions carried in
  an environment record, so the embedding is parametric in their behaviour.
* Fallible code returns `Option`.
-/

/-- A JSON value as produced by `JSON.parse` and consumed by the executor.
Object fields keep their textual order and may repeat; property lookup takes
the last occurrence, as JavaScript object literals do. -/
inductive JValue where
  | null
  | bool (b : Bool)
  | num (n : Int)
  | str (s : String)
  | arr (elems : List JValue)
  | obj (fields : List (String × JValue))
deriving Repr, Inhabited

mutual

def JValue.beq : JValue → JValue → Bool
  | .null, .null => true
  | .bool a, .bool b => a == b
  | .num a, .num b => a == b
  | .str a, .str b => a == b
  | .arr a, .arr b => JValue.beqList a b
  | .obj a, .obj b => JValue.beqFields a b
  | _, _ => false

def JValue.beqList : List JValue → List JValue → Bool
  | [], [] => true
  | x :: xs, y :: ys => JValue.beq x y && JValue.beqList xs ys
  | _, _ => false

def JValue.beqFields : List (String × JValue) → List (String × JValue) → Bool
  | [], [] => true
  | (k₁, v₁) :: xs, (k₂, v₂) :: ys => k₁ == k₂ && JValue.beq v₁ v₂ && JValue.beqFields xs ys
  | _, _ => false

end

mutual

theorem JValue.beq_iff_eq : ∀ a b : JValue, JValue.beq a b = true ↔ a = b
  | .null, .null => by simp [JValue.beq]
  | .bool _, .bool _ => by simp [JValue.beq]
  | .num _, .num _ => by simp [JValue.beq]
  | .str _, .str _ => by simp [JValue.beq]
  | .arr x, .arr y => by simp [JValue.beq, JValue.beqList_iff_eq x y]
  | .obj x, .obj y => by simp [JValue.beq, JValue.beqFields_iff_eq x y]
  | .null, .bool _ | .null, .num _ | .null, .str _ | .null, .arr _ | .null, .obj _
  | .bool _, .null | .bool _, .num _ | .bool _, .str _ | .bool _, .arr _ | .bool _, .obj _
  | .num _, .null | .num _, .bool _ | .num _, .str _ | .num _, .arr _ | .num _, .obj _
  | .str _, .null | .str _, .bool _ | .str _, .num _ | .str _, .arr _ | .str _, .obj _
  | .arr _, .null | .arr _, .bool _ | .arr _, .num _ | .arr _, .str _ | .arr _, .obj _
  | .obj _, .null | .obj _, .bool _ | .obj _, .num _ | .obj _, .str _ | .obj _, .arr _ => by
    simp [JValue.beq]

theorem JValue.beqList_iff_eq : ∀ xs ys : List JValue, JValue.beqList xs ys = true ↔ xs = ys
  | [], [] => by simp [JValue.beqList]
  | x :: xs, y :: ys => by
    simp [JValue.beqList, JValue.beq_iff_eq x y, JValue.beqList_iff_eq xs ys]
  | [], _ :: _ => by simp [JValue.beqList]
  | _ :: _, [] => by simp [JValue.beqList]

theorem JValue.beqFields_iff_eq :
    ∀ xs ys : List (String × JValue), JValue.beqFields xs ys = true ↔ xs = ys
  | [], [] => by simp [JValue.beqFields]
  | (k₁, v₁) :: xs, (k₂, v₂) :: ys => by
    simp [JValue.beqFields, JValue.beq_iff_eq v₁ v₂, JValue.beqFields_iff_eq xs ys, and_assoc]
  | [], _ :: _ => by simp [JValue.beqFields]
  | _ :: _, [] => by simp [JValue.beqFields]

end

instance : DecidableEq JValue := fun a b =>
  decidable_of_iff (JValue.beq a b = true) (JValue.beq_iff_eq a b)

/-- Property lookup on an object value: `fields[k]`, last occurrence winning
as in JavaScript.  Returns `none` when the key is absent. -/
def jlookup (fields : List (String × JValue)) (k : String) : Option JValue :=
  (fields.reverse.find? (fun kv => kv.1 == k)).map (·.2)

/-- Property access `v[k]` on an arbitrary value: `undefined` (i.e. `none`)
unless `v` is an object carrying the key. -/
def jget (v : JValue) (k : String) : Option JValue :=
  match v with
  | .obj fields => jlookup fields k
  | _ => none

/-- JavaScript truthiness of a JSON value (used by `if (responseObject.llmContent)`). -/
def jtruthy (v : JValue) : Bool :=
  match v with
  | .null => false
  | .bool b => b
  | .num n => n != 0
  | .str s => s != ""
  | .arr _ => true
  | .obj _ => true

/-- Set property `k` to `w`, replacing the last occurrence in place if the key
exists (JavaScript assignment keeps the original insertion position), else
appending. -/
def jsetField (fields : List (String × JValue)) (k : String) (w : JValue) :
    List (String × JValue) :=
  if (fields.find? (fun kv => kv.1 == k)).isSome then
    fields.map (fun kv => if kv.1 == k then (kv.1, w) else kv)
  else fields ++ [(k, w)]

/-! ### Character classes (all via `Char.toNat` so that facts are `omega`-friendly) -/

/-- JSON whitespace: space, tab, line feed, carriage return. -/
def isJsonWs (c : Char) : Bool := c.toNat = 32 || c.toNat = 9 || c.toNat = 10 || c.toNat = 13

/-- Whitespace for the purposes of JavaScript `String.prototype.trim`
(the common members; the exotic Unicode spaces are outside the model). -/
def isTrimWs (c : Char) : Bool :=
  (9 ≤ c.toNat && c.toNat ≤ 13) || c.toNat = 32 || c.toNat = 160 ||
  c.toNat = 0x2028 || c.toNat = 0x2029 || c.toNat = 0xFEFF

def isDigitCh (c : Char) : Bool := 48 ≤ c.toNat && c.toNat ≤ 57

/-- A `\w` word character: `[A-Za-z0-9_]`. -/
def isWordCh (c : Char) : Bool :=
  (48 ≤ c.toNat && c.toNat ≤ 57) || (65 ≤ c.toNat && c.toNat ≤ 90) ||
  (97 ≤ c.toNat && c.toNat ≤ 122) || c.toNat = 95

def skipWs (cs : List Char) : List Char := cs.dropWhile isJsonWs

/-- `trim` on a character list: drop leading and trailing whitespace. -/
def trimChars (cs : List Char) : List Char :=
  ((cs.dropWhile isTrimWs).reverse.dropWhile isTrimWs).reverse

def digitChar (n : Nat) : Char := Char.ofNat (48 + n)

def hexDigitChar (n : Nat) : Char :=
  if n < 10 then Char.ofNat (48 + n) else Char.ofNat (87 + n)

def parseHexDigit (c : Char) : Option Nat :=
  if 48 ≤ c.toNat && c.toNat ≤ 57 then some (c.toNat - 48)
  else if 97 ≤ c.toNat && c.toNat ≤ 102 then some (c.toNat - 87)
  else if 65 ≤ c.toNat && c.toNat ≤ 70 then some (c.toNat - 55)
  else none

/-! ### Decimal integers -/

def natToDigitsAux : Nat → Nat → List Char
  | 0, _ => []
  | fuel + 1, n =>
    if n < 10 then [digitChar n]
    else natToDigitsAux fuel (n / 10) ++ [digitChar (n % 10)]

/-- Decimal digits of a natural number, most significant first. -/
def natToDigits (n : Nat) : List Char := natToDigitsAux (n + 1) n

/-- The decimal rendering of an integer, as JavaScript prints integral numbers. -/
def intToChars (i : Int) : List Char :=
  if i < 0 then '-' :: natToDigits i.natAbs else natToDigits i.natAbs

def takeDigits : List Char → List Char × List Char
  | [] => ([], [])
  | c :: cs =>
    if isDigitCh c then
      let (ds, r) := takeDigits cs
      (c :: ds, r)
    else ([], c :: cs)

def digitsVal (ds : List Char) : Nat :=
  ds.foldl (fun a c => 10 * a + (c.toNat - 48)) 0

/-! ### String escaping, as `JSON.stringify` quotes a string -/

def escapeChar (c : Char) : List Char :=
  if c = '"' then ['\\', '"']
  else if c = '\\' then ['\\', '\\']
  else if c.toNat = 8 then ['\\', 'b']
  else if c.toNat = 9 then ['\\', 't']
  else if c.toNat = 10 then ['\\', 'n']
  else if c.toNat = 12 then ['\\', 'f']
  else if c.toNat = 13 then ['\\', 'r']
  else if c.toNat < 32 then
    ['\\', 'u', '0', '0', hexDigitChar (c.toNat / 16), hexDigitChar (c.toNat % 16)]
  else [c]

def escapeChars (cs : List Char) : List Char := (cs.map escapeChar).flatten

def quoteChars (cs : List Char) : List Char := '"' :: escapeChars cs ++ ['"']

/-! ### `JSON.stringify` (compact form, no spacing argument) -/

mutual

def jsonStringifyV : JValue → List Char
  | .null => "null".data
  | .bool true => "true".data
  | .bool false => "false".data
  | .num n => intToChars n
  | .str s => quoteChars s.data
  | .arr xs => '[' :: jsonStringifyElems xs ++ [']']
  | .obj fs => '{' :: jsonStringifyFields fs ++ ['}']

def jsonStringifyElems : List JValue → List Char
  | [] => []
  | [x] => jsonStringifyV x
  | x :: xs => jsonStringifyV x ++ ',' :: jsonStringifyElems xs

def jsonStringifyFields : List (String × JValue) → List Char
  | [] => []
  | [(k, v)] => quoteChars k.data ++ ':' :: jsonStringifyV v
  | (k, v) :: fs => quoteChars k.data ++ ':' :: jsonStringifyV v ++ ',' :: jsonStringifyFields fs

end

/-- `JSON.stringify(v)`. -/
def jsonStringify (v : JValue) : String := String.mk (jsonStringifyV v)

/-! ### `JSON.stringify(v, null, 2)` (two-space pretty form) -/

def indentChars (level : Nat) : List Char := List.replicate (2 * level) ' '

mutual

def jsonStringifyPrettyV : Nat → JValue → List Char
  | _, .null => "null".data
  | _, .bool true => "true".data
  | _, .bool false => "false".data
  | _, .num n => intToChars n
  | _, .str s => quoteChars s.data
  | _, .arr [] => "[]".data
  | level, .arr (x :: xs) =>
    '[' :: '\n' :: jsonStringifyPrettyElems (level + 1) (x :: xs) ++
      '\n' :: indentChars level ++ [']']
  | _, .obj [] => "\x7b\x7d".data
  | level, .obj (f :: fs) =>
    '{' :: '\n' :: jsonStringifyPrettyFields (level + 1) (f :: fs) ++
      '\n' :: indentChars level ++ ['}']

def jsonStringifyPrettyElems : Nat → List JValue → List Char
  | _, [] => []
  | level, [x] => indentChars level ++ jsonStringifyPrettyV level x
  | level, x :: xs =>
    indentChars level ++ jsonStringifyPrettyV level x ++
      ',' :: '\n' :: jsonStringifyPrettyElems level xs

def jsonStringifyPrettyFields : Nat → List (String × JValue) → List Char
  | _, [] => []
  | level, [(k, v)] =>
    indentChars level ++ quoteChars k.data ++ ':' :: ' ' :: jsonStringifyPrettyV level v
  | level, (k, v) :: fs =>
    indentChars level ++ quoteChars k.data ++ ':' :: ' ' :: jsonStringifyPrettyV level v ++
      ',' :: '\n' :: jsonStringifyPrettyFields level fs

end

/-- `JSON.stringify(v, null, 2)`. -/
def jsonStringifyPretty (v : JValue) : String := String.mk (jsonStringifyPrettyV 0 v)

/-! ### `JSON.parse` -/

/-- Parse the body of a quoted string (the opening `"` already consumed),
returning the unescaped characters and the remainder after the closing `"`. -/
def parseStrBody : Nat → List Char → Option (List Char × List Char)
  | 0, _ => none
  | _ + 1, [] => none
  | fuel + 1, c :: cs =>
    if c = '"' then some ([], cs)
    else if c = '\\' then
      match cs with
      | [] => none
      | e :: cs2 =>
        if e = 'u' then
          match cs2 with
          | h1 :: h2 :: h3 :: h4 :: cs3 =>
            match parseHexDigit h1, parseHexDigit h2, parseHexDigit h3, parseHexDigit h4 with
            | some a, some b, some c4, some d =>
              (parseStrBody fuel cs3).map
                (fun p => (Char.ofNat (((a * 16 + b) * 16 + c4) * 16 + d) :: p.1, p.2))
            | _, _, _, _ => none
          | _ => none
        else
          match
            (if e = '"' then some '"'
             else if e = '\\' then some '\\'
             else if e = '/' then some '/'
             else if e = 'b' then some (Char.ofNat 8)
             else if e = 'f' then some (Char.ofNat 12)
             else if e = 'n' then some (Char.ofNat 10)
             else if e = 'r' then some (Char.ofNat 13)
             else if e = 't' then some (Char.ofNat 9)
             else none : Option Char)
          with
          | some u => (parseStrBody fuel cs2).map (fun p => (u :: p.1, p.2))
          | none => none
    else if c.toNat < 32 then none
    else (parseStrBody fuel cs).map (fun p => (c :: p.1, p.2))

/-- Parse a JSON number.  Only integral literals are representable in the
model; fractional and exponent forms are out of scope. -/
def parseNumber (cs : List Char) : Option (JValue × List Char) :=
  match cs with
  | [] => none
  | c :: rest =>
    if c = '-' then
      let (ds, r) := takeDigits rest
      if ds.isEmpty then none else some (.num (-(digitsVal ds : Int)), r)
    else
      let (ds, r) := takeDigits (c :: rest)
      if ds.isEmpty then none else some (.num ((digitsVal ds : Int)), r)

mutual

def parseVal : Nat → List Char → Option (JValue × List Char)
  | 0, _ => none
  | fuel + 1, cs =>
    match skipWs cs with
    | [] => none
    | c :: cs' =>
      if c = '{' then
        let cs2 := skipWs cs'
        if cs2.head? = some '}' then some (.obj [], cs2.tail)
        else (parseObjFields fuel cs2).map (fun p => (.obj p.1, p.2))
      else if c = '[' then
        let cs2 := skipWs cs'
        if cs2.head? = some ']' then some (.arr [], cs2.tail)
        else (parseArrElems fuel cs2).map (fun p => (.arr p.1, p.2))
      else if c = '"' then
        (parseStrBody fuel cs').map (fun p => (.str (String.mk p.1), p.2))
      else if c = 't' then
        if cs'.take 3 = ['r', 'u', 'e'] then some (.bool true, cs'.drop 3) else none
      else if c = 'f' then
        if cs'.take 4 = ['a', 'l', 's', 'e'] then some (.bool false, cs'.drop 4) else none
      else if c = 'n' then
        if cs'.take 3 = ['u', 'l', 'l'] then some (.null, cs'.drop 3) else none
      else if c = '-' || isDigitCh c then parseNumber (c :: cs')
      else none

def parseArrElems : Nat → List Char → Option (List JValue × List Char)
  | 0, _ => none
  | fuel + 1, cs =>
    match parseVal fuel cs with
    | none => none
    | some (v, r) =>
      match skipWs r with
      | ',' :: r2 => (parseArrElems fuel r2).map (fun p => (v :: p.1, p.2))
      | ']' :: r2 => some ([v], r2)
      | _ => none

def parseObjFields : Nat → List Char → Option (List (String × JValue) × List Char)
  | 0, _ => none
  | fuel + 1, cs =>
    match cs with
    | '"' :: t =>
      match parseStrBody fuel t with
      | none => none
      | some (k, r) =>
        match skipWs r with
        | ':' :: r2 =>
          match parseVal fuel r2 with
          | none => none
          | some (v, r3) =>
            match skipWs r3 with
            | ',' :: r4 =>
              match skipWs r4 with
              | cs2 => (parseObjFields fuel cs2).map
                  (fun p => ((String.mk k, v) :: p.1, p.2))
            | '}' :: r4 => some ([(String.mk k, v)], r4)
            | _ => none
        | _ => none
    | _ => none

end

/-- `JSON.parse(s)`: parse one value and require only whitespace after it. -/
def jsonParse (s : String) : Option JValue :=
  match parseVal (2 * s.data.length + 2) s.data with
  | some (v, rest) => if (skipWs rest).isEmpty then some v else none
  | none => none

example : jsonParse "\x7b\"a\": [1, -2, \"x\"], \"b\": null\x7d" =
    some (.obj [("a", .arr [.num 1, .num (-2), .str "x"]), ("b", .null)]) := by decide

example : jsonParse (jsonStringify (.obj [("name", .str "shell"), ("parameters", .obj [])])) =
    some (.obj [("name", .str "shell"), ("parameters", .obj [])]) := by decide

example : jsonStringifyPretty (.obj [("Response", .str "done")]) =
    "\x7b\n  \"Response\": \"done\"\n\x7d" := by decide

/-! ### `stripJsonMarkdown` (packages/core/src/utils/json.ts, lines 143-180) -/

def listStartsWith (cs pat : List Char) : Bool := pat.isPrefixOf cs

def listEndsWith (cs pat : List Char) : Bool := pat.reverse.isPrefixOf cs.reverse

/-- The markdown-fence regex `^```(json)?\s*([\s\S]*?)\s*```$`, returning the
trimmed second group on a match.  (`match[2].trim()` coincides with trimming
everything between the fences, since the `\s*` borders are whitespace.) -/
def fenceStrip (cs : List Char) : Option (List Char) :=
  if listStartsWith cs "```".data then
    let r := cs.drop 3
    let r := if listStartsWith r "json".data then r.drop 4 else r
    if listEndsWith r "```".data then some (trimChars (r.take (r.length - 3))) else none
  else none

/-- The match of `/\{[\s\S]*\}/`: from the first `{` to the last `}`, when the
latter lies after the former. -/
def braceSlice (cs : List Char) : Option (List Char) :=
  match cs.findIdx? (fun c => c = '{'), cs.reverse.findIdx? (fun c => c = '}') with
  | some i, some k =>
    let j := cs.length - 1 - k
    if i < j then some ((cs.drop i).take (j - i + 1)) else none
  | _, _ => none

/-- `stripJsonMarkdown(text)`: trim, strip a whole-string markdown fence,
isolate the outermost `{...}` slice, and delete every `│` character from it. -/
def stripJsonMarkdown (text : String) : String :=
  let cleanedText := trimChars text.data
  let cleanedText :=
    match fenceStrip cleanedText with
    | some inner => inner
    | none => cleanedText
  match braceSlice cleanedText with
  | some jsonText => String.mk ((trimChars jsonText).filter (fun c => c ≠ '│'))
  | none => String.mk cleanedText

/-! ### `parseToolCalls` (packages/core/src/utils/toolCallParser.ts, lines 18-130) -/

/-- A parsed model tool invocation (`FunctionCall` of `@google/genai`):
optional call id, tool name, and an optional arguments value. -/
structure FunctionCallM where
  id : Option String
  name : String
  args : Option JValue
deriving Repr, DecidableEq, Inhabited

/-- `processJsonToolCall`: accept an object with a string `name` property;
`parameters` defaults to `{}` when absent or null (`tc.parameters ?? {}`). -/
def processJsonToolCall (toolCall : JValue) : Option FunctionCallM :=
  match toolCall with
  | .obj fields =>
    match jlookup fields "name" with
    | some (.str n) =>
      some { id := none, name := n,
             args := some (match jlookup fields "parameters" with
               | none => .obj []
               | some .null => .obj []
               | some v => v) }
    | _ => none
  | _ => none

/-- Scan to the first `)` with no line terminator in between (the lazy `(.*?)`
of `/(\w+)\((.*?)\)/`, whose `.` does not cross line terminators). -/
def splitAtCloseParen : List Char → Option (List Char × List Char)
  | [] => none
  | c :: cs =>
    if c = ')' then some ([], cs)
    else if c.toNat = 10 || c.toNat = 13 || c.toNat = 0x2028 || c.toNat = 0x2029 then none
    else (splitAtCloseParen cs).map (fun p => (c :: p.1, p.2))

/-- Scan to the closing quote `q` with no line terminator in between
(the lazy `".*?"` / `'.*?'` alternatives of the argument regex). -/
def splitAtQuote (q : Char) : List Char → Option (List Char × List Char)
  | [] => none
  | c :: cs =>
    if c = q then some ([], cs)
    else if c.toNat = 10 || c.toNat = 13 || c.toNat = 0x2028 || c.toNat = 0x2029 then none
    else (splitAtQuote q cs).map (fun p => (c :: p.1, p.2))

/-- JavaScript `Number(v)` on an already-trimmed bare token, restricted to the
integral literals representable in the model (`none` stands for `NaN`). -/
def jsNumberOfChars (cs : List Char) : Option Int :=
  let signed : Bool × List Char :=
    match cs with
    | '-' :: t => (true, t)
    | '+' :: t => (false, t)
    | t => (false, t)
  let (neg, ds) := signed
  if !ds.isEmpty && ds.all isDigitCh then
    some (if neg then -(digitsVal ds : Int) else (digitsVal ds : Int))
  else none

/-- The basic type inference of the regex fallback: trim, strip matching
quotes, else coerce to number, `true`, `false`, or leave as a string. -/
def coerceArgValue (raw : List Char) : JValue :=
  let value := trimChars raw
  match value with
  | [] => .str ""
  | c :: _ =>
    if c = '"' && value.getLast? = some '"' then .str (String.mk ((value.drop 1).dropLast))
    else if c = '\'' && value.getLast? = some '\'' then .str (String.mk ((value.drop 1).dropLast))
    else
      match jsNumberOfChars value with
      | some n => .num n
      | none =>
        if value = "true".data then .bool true
        else if value = "false".data then .bool false
        else .str (String.mk value)

/-- The exec loop of `/(\w+)=(".*?"|'.*?'|[^,]+)/g` over the args string,
assigning `args[key] = value` (later occurrences of a key overwrite in place). -/
def scanArgPairs : Nat → List Char → List (String × JValue) → List (String × JValue)
  | 0, _, acc => acc
  | fuel + 1, cs, acc =>
    match cs with
    | [] => acc
    | c :: rest =>
      if isWordCh c then
        let run := (c :: rest).takeWhile isWordCh
        let after := (c :: rest).drop run.length
        match after with
        | '=' :: v =>
          match
            (match v with
             | '"' :: t =>
               (splitAtQuote '"' t).map
                 (fun (p : List Char × List Char) => ('"' :: p.1 ++ ['"'], p.2))
             | _ => none)
          with
          | some (raw, r2) =>
            scanArgPairs fuel r2 (jsetField acc (String.mk run) (coerceArgValue raw))
          | none =>
            match
              (match v with
               | '\'' :: t =>
                 (splitAtQuote '\'' t).map
                   (fun (p : List Char × List Char) => ('\'' :: p.1 ++ ['\''], p.2))
               | _ => none)
            with
            | some (raw, r2) =>
              scanArgPairs fuel r2 (jsetField acc (String.mk run) (coerceArgValue raw))
            | none =>
              let bare := v.takeWhile (fun ch => ch ≠ ',')
              if bare.isEmpty then scanArgPairs fuel rest acc
              else scanArgPairs fuel (v.drop bare.length)
                (jsetField acc (String.mk run) (coerceArgValue bare))
        | _ => scanArgPairs fuel rest acc
      else scanArgPairs fuel rest acc

/-- The exec loop of `/(\w+)\((.*?)\)/g` over the content, accumulating
invocations with ids `promptId-ollama-k`. -/
def scanToolCalls (promptId : String) : Nat → List Char → List FunctionCallM → List FunctionCallM
  | 0, _, acc => acc
  | fuel + 1, cs, acc =>
    match cs with
    | [] => acc
    | c :: rest =>
      if isWordCh c then
        let run := (c :: rest).takeWhile isWordCh
        let after := (c :: rest).drop run.length
        match after with
        | '(' :: t =>
          match splitAtCloseParen t with
          | some (argsString, r2) =>
            let args : List (String × JValue) :=
              if argsString.isEmpty then []
              else scanArgPairs (argsString.length + 1) argsString []
            scanToolCalls promptId fuel r2
              (acc ++ [{ id := some (promptId ++ "-ollama-" ++ toString acc.length),
                         name := String.mk run, args := some (.obj args) }])
          | none => scanToolCalls promptId fuel rest acc
        | _ => scanToolCalls promptId fuel rest acc
      else scanToolCalls promptId fuel rest acc

/-- The regex fallback pass of `parseToolCalls` (lines 76-125): strip a
surrounding `[...]`, then scan `IDENT(args)` patterns. -/
def regexFallbackParse (strippedText : String) (promptId : String) : List FunctionCallM :=
  let t := trimChars strippedText.data
  let content :=
    if t.head? = some '[' && t.getLast? = some ']' then (t.drop 1).dropLast else t
  scanToolCalls promptId (content.length + 1) content []

/-- The body of `parseToolCalls` after `strippedText` has been computed:
try JSON (single object or array of objects), fall back to the regex pass
when parsing fails or yields no invocation. -/
def parseToolCallsStripped (strippedText : String) (promptId : String) : List FunctionCallM :=
  match jsonParse strippedText with
  | some parsedJson =>
    let functionCalls :=
      match parsedJson with
      | .arr items => items.filterMap processJsonToolCall
      | v => (processJsonToolCall v).toList
    if functionCalls.length > 0 then functionCalls
    else regexFallbackParse strippedText promptId
  | none => regexFallbackParse strippedText promptId

/-- `parseToolCalls(text, promptId)` (lines 18-130). -/
def parseToolCalls (text : String) (promptId : String) : List FunctionCallM :=
  parseToolCallsStripped (stripJsonMarkdown text) promptId

example :
    parseToolCalls "```json\n\x7b\"name\": \"shell\", \"parameters\": \x7b\"cmd\": \"ls\"\x7d\x7d\n```" "p" =
      [{ id := none, name := "shell", args := some (.obj [("cmd", .str "ls")]) }] := by decide

example :
    parseToolCalls "list_directory(path=\"/a\", level=2, deep=true)" "p" =
      [{ id := some "p-ollama-0", name := "list_directory",
         args := some (.obj [("path", .str "/a"), ("level", .num 2), ("deep", .bool true)]) }] := by
  decide

example :
    parseToolCalls
      "[\x7b\"name\":\"a\",\"parameters\":\x7b\x7d\x7d,\x7b\"name\":\"b\",\"parameters\":\x7b\x7d\x7d]" "p" = [] := by
  decide

/-! ### Executor data model (src/unnamed/part_005, second executor copy, lines 1096-2750) -/

/-- Modelled from the spec: the termination reason enum (`AgentTerminateMode`
of `agents/types.ts`, which is not among the provided sources); §7 of the spec
fixes its inventory as GOAL, MAX_TURNS, TIMEOUT, ERROR_NO_COMPLETE_TASK_CALL,
ABORTED, ERROR. -/
inductive AgentTerminateMode where
  | ERROR
  | TIMEOUT
  | GOAL
  | MAX_TURNS
  | ERROR_NO_COMPLETE_TASK_CALL
  | ABORTED
deriving Repr, DecidableEq, Inhabited

/-- Modelled from the spec: the printable name of a termination reason, used
only inside interpolated activity messages. -/
def AgentTerminateMode.name : AgentTerminateMode → String
  | .ERROR => "ERROR"
  | .TIMEOUT => "TIMEOUT"
  | .GOAL => "GOAL"
  | .MAX_TURNS => "MAX_TURNS"
  | .ERROR_NO_COMPLETE_TASK_CALL => "ERROR_NO_COMPLETE_TASK_CALL"
  | .ABORTED => "ABORTED"

def TASK_COMPLETE_TOOL_NAME : String := "complete_task"

/-- `GRACE_PERIOD_MS = 60 * 1000` (line 1152). -/
def GRACE_PERIOD_MS : Nat := 60 * 1000

/-- The message parts the executor assembles (`Part` of `@google/genai`,
restricted to the variants that occur in next-turn user messages). -/
inductive GPart where
  | text (s : String)
  | functionResponse (name : String) (id : String) (response : JValue)
deriving Repr, DecidableEq, Inhabited

/-- A `Content`: a role plus ordered parts. -/
structure Content where
  role : String
  parts : List GPart
deriving Repr, DecidableEq, Inhabited

/-- `ToolCallRequestInfo` (the fields the model exercises). -/
structure ToolCallRequestInfo where
  callId : String
  name : String
  args : JValue
  prompt_id : String
deriving Repr, DecidableEq, Inhabited

/-- The `response` returned by `executeToolCall`. -/
structure ToolResult where
  responseParts : List GPart
  resultDisplay : String
  error : Option String
deriving Repr, DecidableEq, Inhabited

/-- An activity event as emitted through `emitActivity` (type tag plus the
data fields the claims mention). -/
inductive ActivityEvent where
  | toolCallStart (name : String)
  | toolCallEnd (name : String) (output : String)
  | errorEv (context : String) (name : Option String) (error : String)
  | thoughtChunk (text : String)
deriving Repr, DecidableEq, Inhabited

/-- Result of `outputConfig.schema.safeParse`: validated data, or the
flattened error rendering that the executor embeds into its message. -/
inductive SafeParseResult where
  | success (data : JValue)
  | failure (flattenedError : String)

/-- The agent definition's output specification: a single named field with a
validating schema. -/
structure OutputConfig where
  outputName : String
  safeParse : JValue → SafeParseResult

/-- The executor context that `processFunctionCalls` reads: the filtered
registry's tool names, the definition's output handling, the run
configuration's summarize flag, and the two asynchronous collaborators
(`executeToolCall` and the summarizer) as oracle functions. -/
structure AgentEnv where
  registryToolNames : List String
  outputConfig : Option OutputConfig
  processOutput : Option (JValue → String)
  summarizeToolOutput : Bool
  executeToolCall : ToolCallRequestInfo → ToolResult
  summarize : List GPart → Option String

/-- The summarization rewrite (lines 2421-2445): replace `llmContent` inside
the first function-response part whose response carries a truthy `llmContent`,
then stop (`break`). -/
def replaceFirstLlmContent : List GPart → String → List GPart
  | [], _ => []
  | p :: ps, summary =>
    match p with
    | .functionResponse n id (.obj fields) =>
      match jlookup fields "llmContent" with
      | some v =>
        if jtruthy v then
          .functionResponse n id (.obj (jsetField fields "llmContent" (.str summary))) :: ps
        else p :: replaceFirstLlmContent ps summary
      | none => p :: replaceFirstLlmContent ps summary
    | _ => p :: replaceFirstLlmContent ps summary

/-- The body of one scheduled tool execution (the async closure of lines
2365-2448): run the tool, emit `TOOL_CALL_END` or `ERROR`, and apply the
optional summarization rewrite.  Event order across concurrent executions is
modelled as schedule order. -/
def runToolExecution (env : AgentEnv) (req : ToolCallRequestInfo) :
    List GPart × List ActivityEvent :=
  let toolResponse := env.executeToolCall req
  let events :=
    match toolResponse.error with
    | some msg => [ActivityEvent.errorEv "tool_call" (some req.name) msg]
    | none => [ActivityEvent.toolCallEnd req.name toolResponse.resultDisplay]
  let parts :=
    if env.summarizeToolOutput then
      match env.summarize toolResponse.responseParts with
      | some summary => replaceFirstLlmContent toolResponse.responseParts summary
      | none => toolResponse.responseParts
    else toolResponse.responseParts
  (parts, events)

/-- The loop state of `processFunctionCalls` (lines 2193-2199): completion
flag, submitted output, synchronously recorded response parts, the scheduled
tool executions (`toolExecutionPromises`, kept as their requests), and the
emitted activity events. -/
structure ProcState where
  taskCompleted : Bool
  submittedOutput : Option String
  syncResponseParts : List GPart
  toolExecutionRequests : List ToolCallRequestInfo
  events : List ActivityEvent

def dupCompleteError : String :=
  "Task already marked complete in this turn. Ignoring duplicate call."

def unauthorizedError (name : String) : String :=
  "Unauthorized tool call: '" ++ name ++ "' is not available to this agent."

def missingArgError (outputName : String) : String :=
  "Missing required argument '" ++ outputName ++ "' for completion."

/-- One iteration of the `for (const [index, functionCall] of
functionCalls.entries())` loop (lines 2201-2451). -/
def stepCall (env : AgentEnv) (promptId : String) (s : ProcState)
    (ic : Nat × FunctionCallM) : ProcState :=
  let index := ic.1
  let functionCall := ic.2
  let callId := functionCall.id.getD (promptId ++ "-" ++ toString index)
  let args := functionCall.args.getD (.obj [])
  let s0 := { s with events := s.events ++ [ActivityEvent.toolCallStart functionCall.name] }
  if functionCall.name = TASK_COMPLETE_TOOL_NAME then
    if s0.taskCompleted then
      { s0 with
        syncResponseParts := s0.syncResponseParts ++
          [GPart.functionResponse TASK_COMPLETE_TOOL_NAME callId
            (.obj [("error", .str dupCompleteError)])],
        events := s0.events ++
          [ActivityEvent.errorEv "tool_call" (some functionCall.name) dupCompleteError] }
    else
      match env.outputConfig with
      | some outputConfig =>
        match jget args outputConfig.outputName with
        | some outputValue =>
          match outputConfig.safeParse outputValue with
          | .failure flattened =>
            let error := "Output validation failed: " ++ flattened
            { s0 with
              taskCompleted := false,
              syncResponseParts := s0.syncResponseParts ++
                [GPart.functionResponse TASK_COMPLETE_TOOL_NAME callId
                  (.obj [("error", .str error)])],
              events := s0.events ++
                [ActivityEvent.errorEv "tool_call" (some functionCall.name) error] }
          | .success validatedOutput =>
            let submittedOutput :=
              match env.processOutput with
              | some processOutput => processOutput validatedOutput
              | none =>
                match outputValue with
                | .str sv => sv
                | _ => jsonStringifyPretty outputValue
            { s0 with
              taskCompleted := true,
              submittedOutput := some submittedOutput,
              syncResponseParts := s0.syncResponseParts ++
                [GPart.functionResponse TASK_COMPLETE_TOOL_NAME callId
                  (.obj [("result", .str "Output submitted and task completed.")])],
              events := s0.events ++
                [ActivityEvent.toolCallEnd functionCall.name "Output submitted and task completed."] }
        | none =>
          { s0 with
            taskCompleted := false,
            syncResponseParts := s0.syncResponseParts ++
              [GPart.functionResponse TASK_COMPLETE_TOOL_NAME callId
                (.obj [("error", .str (missingArgError outputConfig.outputName))])],
            events := s0.events ++
              [ActivityEvent.errorEv "tool_call" (some functionCall.name)
                (missingArgError outputConfig.outputName)] }
      | none =>
        { s0 with
          taskCompleted := true,
          submittedOutput := some "Task completed successfully.",
          syncResponseParts := s0.syncResponseParts ++
            [GPart.functionResponse TASK_COMPLETE_TOOL_NAME callId
              (.obj [("status", .str "Task marked complete.")])],
          events := s0.events ++
            [ActivityEvent.toolCallEnd functionCall.name "Task marked complete."] }
  else if (TASK_COMPLETE_TOOL_NAME :: env.registryToolNames).contains functionCall.name then
    { s0 with
      toolExecutionRequests := s0.toolExecutionRequests ++
        [{ callId := callId, name := functionCall.name, args := args, prompt_id := promptId }] }
  else
    { s0 with
      syncResponseParts := s0.syncResponseParts ++
        [GPart.functionResponse functionCall.name callId
          (.obj [("error", .str (unauthorizedError functionCall.name))])],
      events := s0.events ++
        [ActivityEvent.errorEv "tool_call_unauthorized" (some functionCall.name)
          (unauthorizedError functionCall.name)] }

/-- The value returned by `processFunctionCalls`, with the emitted activity
events and the requests that reached the tool layer kept for observation. -/
structure ProcessFunctionCallsResult where
  nextMessage : Content
  submittedOutput : Option String
  taskCompleted : Bool
  events : List ActivityEvent
  executedRequests : List ToolCallRequestInfo
deriving Inhabited

/-- `processFunctionCalls` (lines 2172-2480): iterate the invocations, await
the scheduled executions, combine sync parts before async parts, and append
the diagnostic text when nothing at all was produced. -/
def processFunctionCalls (env : AgentEnv) (functionCalls : List FunctionCallM)
    (promptId : String) : ProcessFunctionCallsResult :=
  let init : ProcState :=
    { taskCompleted := false, submittedOutput := none, syncResponseParts := [],
      toolExecutionRequests := [], events := [] }
  let s := functionCalls.enum.foldl (stepCall env promptId) init
  let asyncResults := s.toolExecutionRequests.map (runToolExecution env)
  let toolResponseParts := s.syncResponseParts ++ (asyncResults.map Prod.fst).flatten
  let toolResponseParts :=
    if functionCalls.length > 0 && toolResponseParts.isEmpty && !s.taskCompleted then
      toolResponseParts ++
        [GPart.text "All tool calls failed or were unauthorized. Please analyze the errors and try an alternative approach."]
    else toolResponseParts
  { nextMessage := { role := "user", parts := toolResponseParts },
    submittedOutput := s.submittedOutput,
    taskCompleted := s.taskCompleted,
    events := s.events ++ (asyncResults.map Prod.snd).flatten,
    executedRequests := s.toolExecutionRequests }

/-- Remove the first occurrence of `pat` from `cs`
(JavaScript `String.prototype.replace` with a string pattern and `''`). -/
def replaceFirstChars : Nat → List Char → List Char → List Char
  | 0, cs, _ => cs
  | fuel + 1, cs, pat =>
    if pat.isPrefixOf cs then cs.drop pat.length
    else
      match cs with
      | [] => []
      | c :: t => c :: replaceFirstChars fuel t pat

/-- `textResponse.replace('```json\n{"name": "complete_task"}\n```', '').trim()`
(lines 1393-1395). -/
def stripCompleteTaskCallText (textResponse : String) : String :=
  String.mk (trimChars
    (replaceFirstChars (textResponse.data.length + 1) textResponse.data
      "```json\n\x7b\"name\": \"complete_task\"\x7d\n```".data))

/-- The outcome of a single agent turn (`AgentTurnResult`, lines 1155-1164). -/
inductive AgentTurnResult where
  | continueTurn (nextMessage : Content)
  | stop (terminateReason : AgentTerminateMode) (finalResult : Option String)
deriving Repr, DecidableEq, Inhabited

/-- The portion of `executeTurn` (lines 1275-1414) that follows a completed,
non-aborted model call: the protocol-violation check on an empty invocation
list, `processFunctionCalls`, and the completion bookkeeping. -/
def executeTurnModel (env : AgentEnv) (functionCalls : List FunctionCallM)
    (textResponse : String) (promptId : String) : AgentTurnResult :=
  if functionCalls.length = 0 then
    .stop .ERROR_NO_COMPLETE_TASK_CALL none
  else
    let r := processFunctionCalls env functionCalls promptId
    if r.taskCompleted then
      let finalResult := r.submittedOutput.getD "Task completed successfully."
      let finalResult :=
        if r.submittedOutput = some "Task completed successfully." then
          stripCompleteTaskCallText textResponse
        else finalResult
      .stop .GOAL (some finalResult)
    else .continueTurn r.nextMessage

/-- The run configuration (`max_turns ≥ 1`, `max_time_minutes ≥ 1`). -/
structure AgentRunConfig where
  max_turns : Nat
  max_time_minutes : Nat
deriving Repr, DecidableEq, Inhabited

/-- `checkTermination` (lines 2722-2733): the start-of-turn limit check.  The
`startTime` argument is received but never read. -/
def checkTermination (runConfig : AgentRunConfig) (startTime : Int)
    (turnCounter : Nat) : Option AgentTerminateMode :=
  if runConfig.max_turns ≠ 0 && runConfig.max_turns ≤ turnCounter then
    some .MAX_TURNS
  else none

/-- What the turn loop (lines 1573-1615) does at the top of an iteration:
terminate on a limit, otherwise proceed into `executeTurn`, whose first act is
the model call. -/
inductive LoopAction where
  | terminate (reason : AgentTerminateMode)
  | startModelCall
deriving Repr, DecidableEq, Inhabited

def turnLoopAction (runConfig : AgentRunConfig) (startTime : Int)
    (turnCounter : Nat) : LoopAction :=
  match checkTermination runConfig startTime turnCounter with
  | some reason => .terminate reason
  | none => .startModelCall

/-- `executeFinalWarningTurn` (lines 1448-1532), given the outcome of the
recovery turn: a grace-period completion yields the recovered result; any
other outcome is a failure emitted as an activity error. -/
def executeFinalWarningTurn (reason : AgentTerminateMode)
    (turnResult : AgentTurnResult) : Option String × List ActivityEvent :=
  let startEvent := ActivityEvent.thoughtChunk
    ("Execution limit reached (" ++ reason.name ++
      "). Attempting one final recovery turn with a grace period.")
  match turnResult with
  | .stop .GOAL finalResult =>
    (some (finalResult.getD "Task completed during grace period."),
     [startEvent, .thoughtChunk "Graceful recovery succeeded."])
  | .stop _ _ =>
    (none,
     [startEvent, .errorEv "recovery_turn" none
        "Graceful recovery attempt failed. Reason: stop"])
  | .continueTurn _ =>
    (none,
     [startEvent, .errorEv "recovery_turn" none
        "Graceful recovery attempt failed. Reason: continue"])

/-- The outcome of the unified recovery block. -/
structure RecoveryOutcome where
  terminateReason : AgentTerminateMode
  finalResult : Option String
  events : List ActivityEvent
deriving Inhabited

/-- The condition guarding the unified recovery block (lines 1620-1624). -/
def isRecoverableReason (r : AgentTerminateMode) : Bool :=
  r ≠ AgentTerminateMode.ERROR && r ≠ AgentTerminateMode.ABORTED &&
    r ≠ AgentTerminateMode.GOAL

/-- JavaScript `a || b` on an optional string: the empty string is falsy. -/
def orDefault (v : Option String) (d : String) : String :=
  match v with
  | some s => if s = "" then d else s
  | none => d

/-- The unified recovery block of `run` (lines 1617-1667), parametric in the
outcome of the recovery turn. -/
def unifiedRecovery (runConfig : AgentRunConfig) (terminateReason : AgentTerminateMode)
    (finalResult : Option String) (recoveryTurnResult : AgentTurnResult) : RecoveryOutcome :=
  if isRecoverableReason terminateReason then
    let (recoveryResult, evs) := executeFinalWarningTurn terminateReason recoveryTurnResult
    match recoveryResult with
    | some r => { terminateReason := .GOAL, finalResult := some r, events := evs }
    | none =>
      match terminateReason with
      | .TIMEOUT =>
        let msg := "Agent timed out after " ++ toString runConfig.max_time_minutes ++
          " minutes."
        { terminateReason := terminateReason, finalResult := some msg,
          events := evs ++ [ActivityEvent.errorEv "timeout" none msg] }
      | .MAX_TURNS =>
        let msg := "Agent reached max turns limit (" ++ toString runConfig.max_turns ++ ")."
        { terminateReason := terminateReason, finalResult := some msg,
          events := evs ++ [ActivityEvent.errorEv "max_turns" none msg] }
      | .ERROR_NO_COMPLETE_TASK_CALL =>
        let msg := orDefault finalResult
          ("Agent stopped calling tools but did not call '" ++ TASK_COMPLETE_TOOL_NAME ++ "'.")
        { terminateReason := terminateReason, finalResult := some msg,
          events := evs ++ [ActivityEvent.errorEv "protocol_violation" none msg] }
      | _ =>
        { terminateReason := terminateReason, finalResult := finalResult, events := evs }
  else
    { terminateReason := terminateReason, finalResult := finalResult, events := [] }

/-- The final return logic of `run` (lines 1669-1685). -/
def runFinalize (terminateReason : AgentTerminateMode) (finalResult : Option String) :
    String × AgentTerminateMode :=
  if terminateReason = AgentTerminateMode.GOAL then
    (orDefault finalResult "Task completed.", terminateReason)
  else
    (orDefault finalResult "Agent execution was terminated before completion.", terminateReason)

/-! ### Gemma tool-schema transform (lines 2539-2594 and 2596-2613) -/

/-- The slice of a `Schema` that `_prepareGemmaToolCode` inspects: the
properties map, the required list, and the remaining fields kept opaque
(preserved by the object spread). -/
structure JSchema where
  properties : Option (List (String × JValue))
  required : Option (List String)
  rest : List (String × JValue)
deriving Repr, DecidableEq, Inhabited

/-- A `FunctionDeclaration`, with either `parameters` or the raw
`parametersJsonSchema` carrying the parameter schema. -/
structure FunctionDeclaration where
  name : String
  description : Option String
  parameters : Option JSchema
  parametersJsonSchema : Option JSchema
deriving Repr, DecidableEq, Inhabited

/-- The per-tool body of `_prepareGemmaToolCode` (lines 2547-2589): rename
`parametersJsonSchema` to `parameters`, then drop every property named
`description` and filter it from `required`. -/
def gemmaTransformTool (tool : FunctionDeclaration) : FunctionDeclaration :=
  let newTool :=
    match tool.parametersJsonSchema with
    | some schema => { tool with parameters := some schema, parametersJsonSchema := none }
    | none => tool
  match newTool.parameters with
  | some p =>
    match p.properties with
    | some props =>
      let newProperties := props.filter (fun kv => kv.1 ≠ "description")
      let required :=
        match p.required with
        | some reqList => some (reqList.filter (fun n => n ≠ "description"))
        | none => none
      { newTool with
        parameters := some { p with properties := some newProperties, required := required } }
    | none => newTool
  | none => newTool

/-- `_prepareGemmaToolCode` up to serialization: the transformed declaration
list (the source then renders it with `JSON.stringify(..., null, 2)`). -/
def prepareGemmaToolCodeDecls (tools : List FunctionDeclaration) : List FunctionDeclaration :=
  tools.map gemmaTransformTool

def containsSubstring (cs pat : List Char) : Bool :=
  cs.tails.any (fun t => pat.isPrefixOf t)

/-- `promptConfig.systemPrompt.includes('${tool_code}')` (line 2609). -/
def systemPromptReferencesToolCode (systemPrompt : String) : Bool :=
  containsSubstring systemPrompt.data "$\x7btool_code\x7d".data

/-- The `tool_code` template input of `buildSystemPrompt` (lines 2609-2613):
populated with the Gemma-transformed declarations exactly when the system
prompt references the token. -/
def toolCodeTemplateInput (systemPrompt : String) (tools : List FunctionDeclaration) :
    Option (List FunctionDeclaration) :=
  if systemPromptReferencesToolCode systemPrompt then some (prepareGemmaToolCodeDecls tools)
  else none

/-! ### Interrupt manager (packages/core/src/common/abort-signal-manager.ts) -/

def SINGLE_INTERRUPT : String := "SINGLE_INTERRUPT"

def DOUBLE_INTERRUPT : String := "DOUBLE_INTERRUPT"

/-- An `AbortController` handle, identified abstractly. -/
structure AbortController where
  ctrlId : Nat
deriving Repr, DecidableEq, Inhabited

/-- A frame of the interrupt manager's context stack (first variant,
lines 16-19): nullable per-turn controller and the hard-abort flag. -/
structure AgentContext where
  currentTurnController : Option AbortController
  isHardAbort : Bool
deriving Repr, DecidableEq, Inhabited

/-- The manager's state: the context stack, top at the end (`array.push`). -/
abbrev SignalManagerState := List AgentContext

def startAgentSession (st : SignalManagerState) : SignalManagerState :=
  st ++ [{ currentTurnController := none, isHardAbort := false }]

def endAgentSession (st : SignalManagerState) : SignalManagerState := st.dropLast

def setCurrentTurnController (st : SignalManagerState) (controller : AbortController) :
    SignalManagerState :=
  match st.getLast? with
  | none => st
  | some ctx =>
    st.dropLast ++ [{ ctx with currentTurnController := some controller, isHardAbort := false }]

/-- `abortCurrent` (first variant, lines 57-70): returns the possibly updated
state and the delivered abort, if any, as `(controller, reason)`. -/
def abortCurrent (st : SignalManagerState) :
    SignalManagerState × Option (AbortController × String) :=
  match st.getLast? with
  | none => (st, none)
  | some ctx =>
    match ctx.currentTurnController with
    | none => (st, none)
    | some ctrl =>
      (st, some (ctrl, if ctx.isHardAbort then DOUBLE_INTERRUPT else SINGLE_INTERRUPT))

/-- A frame of the second manager variant (lines 108-112): a per-turn
interrupt counter instead of the boolean flag. -/
structure AgentContextV2 where
  currentTurnController : Option AbortController
  interruptCount : Nat
deriving Repr, DecidableEq, Inhabited

abbrev SignalManagerStateV2 := List AgentContextV2

/-- `abortCurrent` (second variant, lines 139-156): the early return on an
empty stack or a null controller also skips the counter increment. -/
def abortCurrentV2 (st : SignalManagerStateV2) :
    SignalManagerStateV2 × Option (AbortController × String) :=
  match st.getLast? with
  | none => (st, none)
  | some ctx =>
    match ctx.currentTurnController with
    | none => (st, none)
    | some ctrl =>
      let newCount := ctx.interruptCount + 1
      (st.dropLast ++ [{ ctx with interruptCount := newCount }],
       some (ctrl, if newCount > 1 then DOUBLE_INTERRUPT else SINGLE_INTERRUPT))

/-! ### Arithmetic facts about the decimal printer -/

theorem digitChar_toNat : ∀ m, m < 10 → (digitChar m).toNat = 48 + m := by decide

theorem hexDigitChar_parse : ∀ n, n < 16 → parseHexDigit (hexDigitChar n) = some n := by decide

theorem ne_of_toNat_ne {a b : Char} (h : a.toNat ≠ b.toNat) : a ≠ b := by
  intro hab
  exact h (by rw [hab])

theorem natToDigitsAux_ne_nil : ∀ fuel n, n < fuel → natToDigitsAux fuel n ≠ [] := by
  intro fuel
  induction fuel with
  | zero => intro n h; omega
  | succ f ih =>
    intro n _
    unfold natToDigitsAux
    split
    · simp
    · simp

theorem natToDigitsAux_digits :
    ∀ fuel n, n < fuel → ∀ c ∈ natToDigitsAux fuel n, isDigitCh c = true := by
  intro fuel
  induction fuel with
  | zero => intro n h; omega
  | succ f ih =>
    intro n hn c hc
    unfold natToDigitsAux at hc
    split at hc
    · rename_i h10
      simp at hc
      subst hc
      simp [isDigitCh, digitChar_toNat n h10]
      omega
    · rename_i h10
      rw [List.mem_append] at hc
      rcases hc with hc | hc
      · exact ih (n / 10) (by omega) c hc
      · simp at hc
        subst hc
        have := digitChar_toNat (n % 10) (by omega)
        simp [isDigitCh, this]
        omega

theorem digitsVal_aux :
    ∀ fuel n acc, n < fuel →
      (natToDigitsAux fuel n).foldl (fun a c => 10 * a + (c.toNat - 48)) acc =
        acc * 10 ^ (natToDigitsAux fuel n).length + n := by
  intro fuel
  induction fuel with
  | zero => intro n acc h; omega
  | succ f ih =>
    intro n acc hn
    unfold natToDigitsAux
    split
    · rename_i h10
      simp [digitChar_toNat n h10]
      omega
    · rename_i h10
      rw [List.foldl_append, List.length_append]
      have hdiv : n / 10 < f := by
        have h1 : n / 10 < n := Nat.div_lt_self (by omega) (by omega)
        omega
      rw [ih (n / 10) acc hdiv]
      have hmod := digitChar_toNat (n % 10) (by omega)
      simp only [List.foldl_cons, List.foldl_nil, List.length_append, List.length_cons,
        List.length_nil, Nat.pow_succ]
      rw [hmod]
      have hq : acc * (10 ^ (natToDigitsAux f (n / 10)).length * 10) =
          10 * (acc * 10 ^ (natToDigitsAux f (n / 10)).length) := by ring
      rw [hq]
      omega

theorem digitsVal_natToDigits (n : Nat) : digitsVal (natToDigits n) = n := by
  have := digitsVal_aux (n + 1) n 0 (by omega)
  simpa [digitsVal, natToDigits] using this

theorem natToDigits_ne_nil (n : Nat) : natToDigits n ≠ [] :=
  natToDigitsAux_ne_nil (n + 1) n (by omega)

theorem natToDigits_digits (n : Nat) : ∀ c ∈ natToDigits n, isDigitCh c = true :=
  natToDigitsAux_digits (n + 1) n (by omega)

theorem takeDigits_append :
    ∀ ds rest, (∀ c ∈ ds, isDigitCh c = true) → (∀ c ∈ rest.head?, isDigitCh c = false) →
      takeDigits (ds ++ rest) = (ds, rest) := by
  intro ds
  induction ds with
  | nil =>
    intro rest _ h2
    cases rest with
    | nil => rfl
    | cons c t =>
      have hc := h2 c (by simp)
      simp [takeDigits, hc]
  | cons d ds ih =>
    intro rest h1 h2
    have hd := h1 d (by simp)
    simp only [List.cons_append, takeDigits, hd, if_true]
    rw [show ds.append rest = ds ++ rest from rfl]
    rw [ih rest (fun c hc => h1 c (by simp [hc])) h2]

theorem parseNumber_intToChars :
    ∀ (i : Int) (rest : List Char), (∀ c ∈ rest.head?, isDigitCh c = false) →
      parseNumber (intToChars i ++ rest) = some (.num i, rest) := by
  intro i rest hrest
  by_cases hi : i < 0
  · simp only [intToChars, if_pos hi, List.cons_append]
    obtain ⟨d, ds, hds⟩ : ∃ d ds, natToDigits i.natAbs = d :: ds := by
      cases h : natToDigits i.natAbs with
      | nil => exact absurd h (natToDigits_ne_nil _)
      | cons d ds => exact ⟨d, ds, rfl⟩
    simp only [parseNumber, if_pos rfl]
    rw [takeDigits_append _ rest (natToDigits_digits _) hrest]
    have hne : (natToDigits i.natAbs).isEmpty = false := by
      rw [hds]; rfl
    simp [hne, digitsVal_natToDigits]
    rw [abs_of_nonpos (by omega : i ≤ 0)]
    ring
  · simp only [intToChars, if_neg hi]
    obtain ⟨d, ds, hds⟩ : ∃ d ds, natToDigits i.natAbs = d :: ds := by
      cases h : natToDigits i.natAbs with
      | nil => exact absurd h (natToDigits_ne_nil _)
      | cons d ds => exact ⟨d, ds, rfl⟩
    have hd : isDigitCh d = true := by
      apply natToDigits_digits i.natAbs
      rw [hds]; simp
    have hdne : d ≠ '-' := by
      apply ne_of_toNat_ne
      simp [isDigitCh] at hd
      have h45 : ('-').toNat = 45 := rfl
      omega
    rw [hds, List.cons_append, parseNumber, if_neg hdne]
    rw [show d :: (ds ++ rest) = (d :: ds) ++ rest from rfl, ← hds]
    rw [takeDigits_append _ rest (natToDigits_digits _) hrest]
    have hne : (natToDigits i.natAbs).isEmpty = false := by
      rw [hds]; rfl
    simp [hne, digitsVal_natToDigits]
    omega

/-! ### Round trip through the string escaper -/

theorem parseStrBody_escape :
    ∀ (cs : List Char) (fuel : Nat) (rest : List Char),
      cs.length < fuel →
      parseStrBody fuel (escapeChars cs ++ '"' :: rest) = some (cs, rest) := by
  intro cs
  induction cs with
  | nil =>
    intro fuel rest h
    cases fuel with
    | zero => omega
    | succ f => simp [escapeChars, parseStrBody]
  | cons c cs ih =>
    intro fuel rest h
    cases fuel with
    | zero => omega
    | succ f =>
    have hcs : cs.length < f := by simp at h; omega
    have hstep : escapeChars (c :: cs) = escapeChar c ++ escapeChars cs := by
      simp [escapeChars]
    rw [hstep]
    by_cases h1 : c = '"'
    · subst h1
      simp only [show escapeChar '"' = ['\\', '"'] from rfl, List.cons_append, List.nil_append]
      simp [parseStrBody, ih f rest hcs]
    by_cases h2 : c = '\\'
    · subst h2
      simp only [show escapeChar '\\' = ['\\', '\\'] from rfl, List.cons_append, List.nil_append]
      simp [parseStrBody, h1, ih f rest hcs]
    by_cases h8 : c.toNat = 8
    · have he : escapeChar c = ['\\', 'b'] := by simp [escapeChar, h1, h2, h8]
      have hc : Char.ofNat 8 = c := by rw [← h8, Char.ofNat_toNat]
      rw [he]
      simp only [List.cons_append, List.nil_append]
      simp [parseStrBody, ih f rest hcs, hc] <;> exact hc
    by_cases h9 : c.toNat = 9
    · have he : escapeChar c = ['\\', 't'] := by simp [escapeChar, h1, h2, h8, h9]
      have hc : Char.ofNat 9 = c := by rw [← h9, Char.ofNat_toNat]
      rw [he]
      simp only [List.cons_append, List.nil_append]
      simp [parseStrBody, ih f rest hcs, hc] <;> exact hc
    by_cases h10 : c.toNat = 10
    · have he : escapeChar c = ['\\', 'n'] := by simp [escapeChar, h1, h2, h8, h9, h10]
      have hc : Char.ofNat 10 = c := by rw [← h10, Char.ofNat_toNat]
      rw [he]
      simp only [List.cons_append, List.nil_append]
      simp [parseStrBody, ih f rest hcs, hc] <;> exact hc
    by_cases h12 : c.toNat = 12
    · have he : escapeChar c = ['\\', 'f'] := by simp [escapeChar, h1, h2, h8, h9, h10, h12]
      have hc : Char.ofNat 12 = c := by rw [← h12, Char.ofNat_toNat]
      rw [he]
      simp only [List.cons_append, List.nil_append]
      simp [parseStrBody, ih f rest hcs, hc] <;> exact hc
    by_cases h13 : c.toNat = 13
    · have he : escapeChar c = ['\\', 'r'] := by simp [escapeChar, h1, h2, h8, h9, h10, h12, h13]
      have hc : Char.ofNat 13 = c := by rw [← h13, Char.ofNat_toNat]
      rw [he]
      simp only [List.cons_append, List.nil_append]
      simp [parseStrBody, ih f rest hcs, hc] <;> exact hc
    by_cases hlt : c.toNat < 32
    · have he : escapeChar c =
          ['\\', 'u', '0', '0', hexDigitChar (c.toNat / 16), hexDigitChar (c.toNat % 16)] := by
        simp [escapeChar, h1, h2, h8, h9, h10, h12, h13, hlt]
      rw [he]
      simp only [List.cons_append, List.nil_append]
      have hp0 : parseHexDigit '0' = some 0 := rfl
      have hp1 := hexDigitChar_parse (c.toNat / 16) (by omega)
      have hp2 := hexDigitChar_parse (c.toNat % 16) (by omega)
      simp [parseStrBody, hp0, hp1, hp2, ih f rest hcs]
      rw [show c.toNat / 16 * 16 + c.toNat % 16 = c.toNat from by omega, Char.ofNat_toNat]
    · have he : escapeChar c = [c] := by
        simp [escapeChar, h1, h2, h8, h9, h10, h12, h13, hlt]
      rw [he]
      simp only [List.cons_append, List.nil_append]
      simp [parseStrBody, h1, h2, hlt, ih f rest hcs]

/-! ### Round trip `jsonParse (jsonStringify v) = some v` -/

mutual

/-- Fuel sufficient for `parseVal` to consume the rendering of `v`. -/
def fuelV : JValue → Nat
  | .null => 1
  | .bool _ => 1
  | .num _ => 1
  | .str s => s.data.length + 2
  | .arr xs => 2 + fuelElems xs
  | .obj fs => 2 + fuelFields fs

def fuelElems : List JValue → Nat
  | [] => 0
  | x :: xs => 1 + fuelV x + fuelElems xs

def fuelFields : List (String × JValue) → Nat
  | [] => 0
  | (k, v) :: fs => 2 + k.data.length + fuelV v + fuelFields fs

end

theorem skipWs_cons_of_not {c : Char} (h : isJsonWs c = false) (t : List Char) :
    skipWs (c :: t) = c :: t := by
  simp [skipWs, List.dropWhile_cons, h]

theorem stringMk_data (s : String) : String.mk s.data = s := rfl

theorem jsonStringifyV_head_spec :
    ∀ v : JValue, ∃ c t, jsonStringifyV v = c :: t ∧ isJsonWs c = false ∧
      c ≠ ']' ∧ c ≠ '}' := by
  intro v
  cases v with
  | null => exact ⟨_, _, rfl, by decide⟩
  | bool b => cases b <;> exact ⟨_, _, rfl, by decide⟩
  | num n =>
    by_cases hn : n < 0
    · refine ⟨'-', natToDigits n.natAbs, ?_, by decide, by decide, by decide⟩
      simp [jsonStringifyV, intToChars, hn]
    · obtain ⟨d, ds, hds⟩ : ∃ d ds, natToDigits n.natAbs = d :: ds := by
        cases h : natToDigits n.natAbs with
        | nil => exact absurd h (natToDigits_ne_nil _)
        | cons d ds => exact ⟨d, ds, rfl⟩
      have hd : isDigitCh d = true := by
        apply natToDigits_digits n.natAbs
        rw [hds]; simp
      simp [isDigitCh] at hd
      refine ⟨d, ds, ?_, ?_, ?_, ?_⟩
      · simp [jsonStringifyV, intToChars, hn, hds]
      · simp [isJsonWs]; omega
      · apply ne_of_toNat_ne
        have : (']').toNat = 93 := rfl
        omega
      · apply ne_of_toNat_ne
        have : ('}').toNat = 125 := rfl
        omega
  | str s => exact ⟨_, _, rfl, by decide⟩
  | arr xs => exact ⟨_, _, rfl, by decide⟩
  | obj fs => exact ⟨_, _, rfl, by decide⟩

theorem head_not_digit {c0 : Char} (h : isDigitCh c0 = false) :
    ∀ (r : List Char), ∀ c ∈ (c0 :: r).head?, isDigitCh c = false := by
  intro r c hc
  simp at hc
  subst hc
  exact h

theorem parseVal_step_obj (f : Nat) (cs' : List Char) :
    parseVal (f + 1) ('{' :: cs') =
      (if (skipWs cs').head? = some '}' then some (.obj [], (skipWs cs').tail)
       else (parseObjFields f (skipWs cs')).map (fun p => (.obj p.1, p.2))) := by
  simp [parseVal, skipWs_cons_of_not (show isJsonWs '{' = false by decide)]

theorem parseVal_step_arr (f : Nat) (cs' : List Char) :
    parseVal (f + 1) ('[' :: cs') =
      (if (skipWs cs').head? = some ']' then some (.arr [], (skipWs cs').tail)
       else (parseArrElems f (skipWs cs')).map (fun p => (.arr p.1, p.2))) := by
  simp [parseVal, skipWs_cons_of_not (show isJsonWs '[' = false by decide)]

theorem parseVal_step_str (f : Nat) (cs' : List Char) :
    parseVal (f + 1) ('"' :: cs') =
      (parseStrBody f cs').map (fun p => (.str (String.mk p.1), p.2)) := by
  simp [parseVal, skipWs_cons_of_not (show isJsonWs '"' = false by decide)]

mutual

theorem parseVal_roundtrip :
    ∀ (v : JValue) (fuel : Nat) (rest : List Char),
      fuelV v ≤ fuel → (∀ c ∈ rest.head?, isDigitCh c = false) →
      parseVal fuel (jsonStringifyV v ++ rest) = some (v, rest)
  | .null, fuel, rest => by
    intro hf hr
    cases fuel with
    | zero => simp [fuelV] at hf
    | succ f =>
      show parseVal (f + 1) (('n' :: ['u', 'l', 'l']) ++ rest) = _
      simp only [List.cons_append, List.nil_append, parseVal,
        skipWs_cons_of_not (show isJsonWs 'n' = false by decide)]
      simp
  | .bool true, fuel, rest => by
    intro hf hr
    cases fuel with
    | zero => simp [fuelV] at hf
    | succ f =>
      show parseVal (f + 1) (('t' :: ['r', 'u', 'e']) ++ rest) = _
      simp only [List.cons_append, List.nil_append, parseVal,
        skipWs_cons_of_not (show isJsonWs 't' = false by decide)]
      simp
  | .bool false, fuel, rest => by
    intro hf hr
    cases fuel with
    | zero => simp [fuelV] at hf
    | succ f =>
      show parseVal (f + 1) (('f' :: ['a', 'l', 's', 'e']) ++ rest) = _
      simp only [List.cons_append, List.nil_append, parseVal,
        skipWs_cons_of_not (show isJsonWs 'f' = false by decide)]
      simp
  | .num n, fuel, rest => by
    intro hf hr
    cases fuel with
    | zero => simp [fuelV] at hf
    | succ f =>
      show parseVal (f + 1) (intToChars n ++ rest) = _
      by_cases hn : n < 0
      · simp only [intToChars, if_pos hn, List.cons_append]
        simp only [parseVal, skipWs_cons_of_not (show isJsonWs '-' = false by decide)]
        have hpn := parseNumber_intToChars n rest hr
        simp only [intToChars, if_pos hn, List.cons_append] at hpn
        simpa using hpn
      · obtain ⟨d, ds, hds⟩ : ∃ d ds, natToDigits n.natAbs = d :: ds := by
          cases h : natToDigits n.natAbs with
          | nil => exact absurd h (natToDigits_ne_nil _)
          | cons d ds => exact ⟨d, ds, rfl⟩
        have hd : isDigitCh d = true := by
          apply natToDigits_digits n.natAbs
          rw [hds]; simp
        have hdn : 48 ≤ d.toNat ∧ d.toNat ≤ 57 := by
          simp [isDigitCh] at hd; omega
        simp only [intToChars, if_neg hn, hds, List.cons_append]
        have hws : isJsonWs d = false := by simp [isJsonWs]; omega
        simp only [parseVal, skipWs_cons_of_not hws]
        have h1 : ¬(d = '{') := ne_of_toNat_ne (by have : ('{').toNat = 123 := rfl; omega)
        have h2 : ¬(d = '[') := ne_of_toNat_ne (by have : ('[').toNat = 91 := rfl; omega)
        have h3 : ¬(d = '"') := ne_of_toNat_ne (by have : ('"').toNat = 34 := rfl; omega)
        have h4 : ¬(d = 't') := ne_of_toNat_ne (by have : ('t').toNat = 116 := rfl; omega)
        have h5 : ¬(d = 'f') := ne_of_toNat_ne (by have : ('f').toNat = 102 := rfl; omega)
        have h6 : ¬(d = 'n') := ne_of_toNat_ne (by have : ('n').toNat = 110 := rfl; omega)
        have hpn := parseNumber_intToChars n rest hr
        simp only [intToChars, if_neg hn, hds, List.cons_append] at hpn
        simp [h1, h2, h3, h4, h5, h6, hd, hpn]
  | .str s, fuel, rest => by
    intro hf hr
    cases fuel with
    | zero => simp [fuelV] at hf
    | succ f =>
      have hlen : s.data.length < f := by simp only [fuelV] at hf; omega
      show parseVal (f + 1) (quoteChars s.data ++ rest) = _
      have hshape : quoteChars s.data ++ rest = '"' :: (escapeChars s.data ++ '"' :: rest) := by
        simp [quoteChars]
      rw [hshape, parseVal_step_str, parseStrBody_escape s.data f rest hlen]
      simp [stringMk_data]
  | .arr [], fuel, rest => by
    intro hf hr
    cases fuel with
    | zero => simp [fuelV] at hf
    | succ f =>
      show parseVal (f + 1) (('[' :: jsonStringifyElems [] ++ [']']) ++ rest) = _
      have hshape : ('[' :: jsonStringifyElems [] ++ [']']) ++ rest = '[' :: ']' :: rest := by
        simp [jsonStringifyElems]
      rw [hshape, parseVal_step_arr,
        skipWs_cons_of_not (show isJsonWs ']' = false by decide)]
      simp
  | .arr (x :: xs), fuel, rest => by
    intro hf hr
    cases fuel with
    | zero => simp [fuelV] at hf
    | succ f =>
      have hfe : fuelElems (x :: xs) ≤ f := by simp only [fuelV] at hf; omega
      show parseVal (f + 1) (('[' :: jsonStringifyElems (x :: xs) ++ [']']) ++ rest) = _
      have hshape : ('[' :: jsonStringifyElems (x :: xs) ++ [']']) ++ rest =
          '[' :: (jsonStringifyElems (x :: xs) ++ ']' :: rest) := by simp
      rw [hshape, parseVal_step_arr]
      obtain ⟨c0, t0, hm, hws0, hnb0, _⟩ := jsonStringifyV_head_spec x
      obtain ⟨Z, hZ⟩ : ∃ Z, jsonStringifyElems (x :: xs) ++ ']' :: rest = c0 :: Z := by
        cases xs with
        | nil => exact ⟨t0 ++ ']' :: rest, by simp [jsonStringifyElems, hm]⟩
        | cons y ys =>
          exact ⟨t0 ++ (',' :: jsonStringifyElems (y :: ys) ++ ']' :: rest),
            by simp [jsonStringifyElems, hm]⟩
      rw [hZ, skipWs_cons_of_not hws0]
      rw [show (c0 :: Z).head? = some c0 from rfl]
      rw [if_neg (by simp [hnb0])]
      rw [← hZ, parseArrElems_roundtrip (x :: xs) f rest (by simp) hfe]
      rfl
  | .obj [], fuel, rest => by
    intro hf hr
    cases fuel with
    | zero => simp [fuelV] at hf
    | succ f =>
      show parseVal (f + 1) (('{' :: jsonStringifyFields [] ++ ['}']) ++ rest) = _
      have hshape : ('{' :: jsonStringifyFields [] ++ ['}']) ++ rest = '{' :: '}' :: rest := by
        simp [jsonStringifyFields]
      rw [hshape, parseVal_step_obj,
        skipWs_cons_of_not (show isJsonWs '}' = false by decide)]
      simp
  | .obj ((k, v) :: fs), fuel, rest => by
    intro hf hr
    cases fuel with
    | zero => simp [fuelV] at hf
    | succ f =>
      have hff : fuelFields ((k, v) :: fs) ≤ f := by simp only [fuelV] at hf; omega
      show parseVal (f + 1) (('{' :: jsonStringifyFields ((k, v) :: fs) ++ ['}']) ++ rest) = _
      have hshape : ('{' :: jsonStringifyFields ((k, v) :: fs) ++ ['}']) ++ rest =
          '{' :: (jsonStringifyFields ((k, v) :: fs) ++ '}' :: rest) := by simp
      rw [hshape, parseVal_step_obj]
      obtain ⟨Z, hZ⟩ : ∃ Z, jsonStringifyFields ((k, v) :: fs) ++ '}' :: rest = '"' :: Z := by
        cases fs with
        | nil =>
          exact ⟨escapeChars k.data ++ '"' :: (':' :: (jsonStringifyV v ++ '}' :: rest)),
            by simp [jsonStringifyFields, quoteChars]⟩
        | cons f2 fs2 =>
          exact ⟨escapeChars k.data ++ '"' :: (':' :: (jsonStringifyV v ++
              ',' :: (jsonStringifyFields (f2 :: fs2) ++ '}' :: rest))),
            by simp [jsonStringifyFields, quoteChars]⟩
      rw [hZ, skipWs_cons_of_not (show isJsonWs '"' = false by decide)]
      rw [show (('"' : Char) :: Z).head? = some '"' from rfl]
      rw [if_neg (by decide)]
      rw [← hZ, parseObjFields_roundtrip ((k, v) :: fs) f rest (by simp) hff]
      rfl

theorem parseArrElems_roundtrip :
    ∀ (xs : List JValue) (fuel : Nat) (rest : List Char),
      xs ≠ [] → fuelElems xs ≤ fuel →
      parseArrElems fuel (jsonStringifyElems xs ++ ']' :: rest) = some (xs, rest)
  | [], _, _ => by intro h _; exact absurd rfl h
  | [x], fuel, rest => by
    intro _ hf
    cases fuel with
    | zero => simp only [fuelElems] at hf; omega
    | succ f =>
      have hfx : fuelV x ≤ f := by simp only [fuelElems] at hf; omega
      show parseArrElems (f + 1) (jsonStringifyElems [x] ++ ']' :: rest) = _
      have hshape : jsonStringifyElems [x] ++ ']' :: rest =
          jsonStringifyV x ++ ']' :: rest := by simp [jsonStringifyElems]
      rw [hshape]
      simp only [parseArrElems]
      rw [parseVal_roundtrip x f (']' :: rest) hfx (head_not_digit (by decide) rest)]
      simp [skipWs_cons_of_not (show isJsonWs ']' = false by decide)]
  | x :: y :: tl, fuel, rest => by
    intro _ hf
    cases fuel with
    | zero => simp only [fuelElems] at hf; omega
    | succ f =>
      have hfx : fuelV x ≤ f := by simp only [fuelElems] at hf; omega
      have hfe : fuelElems (y :: tl) ≤ f := by simp only [fuelElems] at hf ⊢; omega
      show parseArrElems (f + 1) (jsonStringifyElems (x :: y :: tl) ++ ']' :: rest) = _
      have hshape : jsonStringifyElems (x :: y :: tl) ++ ']' :: rest =
          jsonStringifyV x ++ ',' :: (jsonStringifyElems (y :: tl) ++ ']' :: rest) := by
        simp [jsonStringifyElems]
      rw [hshape]
      simp only [parseArrElems]
      rw [parseVal_roundtrip x f (',' :: (jsonStringifyElems (y :: tl) ++ ']' :: rest)) hfx
        (head_not_digit (by decide) _)]
      simp [skipWs_cons_of_not (show isJsonWs ',' = false by decide),
        parseArrElems_roundtrip (y :: tl) f rest (by simp) hfe]

theorem parseObjFields_roundtrip :
    ∀ (fs : List (String × JValue)) (fuel : Nat) (rest : List Char),
      fs ≠ [] → fuelFields fs ≤ fuel →
      parseObjFields fuel (jsonStringifyFields fs ++ '}' :: rest) = some (fs, rest)
  | [], _, _ => by intro h _; exact absurd rfl h
  | [(k, v)], fuel, rest => by
    intro _ hf
    cases fuel with
    | zero => simp only [fuelFields] at hf; omega
    | succ f =>
      have hk : k.data.length < f := by simp only [fuelFields] at hf; omega
      have hfv : fuelV v ≤ f := by simp only [fuelFields] at hf; omega
      show parseObjFields (f + 1) (jsonStringifyFields [(k, v)] ++ '}' :: rest) = _
      have hshape : jsonStringifyFields [(k, v)] ++ '}' :: rest =
          '"' :: (escapeChars k.data ++ '"' ::
            (':' :: (jsonStringifyV v ++ '}' :: rest))) := by
        simp [jsonStringifyFields, quoteChars]
      rw [hshape]
      simp only [parseObjFields]
      rw [parseStrBody_escape k.data f (':' :: (jsonStringifyV v ++ '}' :: rest)) hk]
      simp [skipWs_cons_of_not (show isJsonWs ':' = false by decide),
        parseVal_roundtrip v f ('}' :: rest) hfv (head_not_digit (by decide) rest),
        skipWs_cons_of_not (show isJsonWs '}' = false by decide), stringMk_data]
  | (k, v) :: (k2, v2) :: tl, fuel, rest => by
    intro _ hf
    cases fuel with
    | zero => simp only [fuelFields] at hf; omega
    | succ f =>
      have hk : k.data.length < f := by simp only [fuelFields] at hf; omega
      have hfv : fuelV v ≤ f := by simp only [fuelFields] at hf; omega
      have hft : fuelFields ((k2, v2) :: tl) ≤ f := by
        simp only [fuelFields] at hf ⊢
        omega
      show parseObjFields (f + 1) (jsonStringifyFields ((k, v) :: (k2, v2) :: tl) ++
        '}' :: rest) = _
      have hshape : jsonStringifyFields ((k, v) :: (k2, v2) :: tl) ++ '}' :: rest =
          '"' :: (escapeChars k.data ++ '"' ::
            (':' :: (jsonStringifyV v ++
              ',' :: (jsonStringifyFields ((k2, v2) :: tl) ++ '}' :: rest)))) := by
        simp [jsonStringifyFields, quoteChars]
      rw [hshape]
      simp only [parseObjFields]
      rw [parseStrBody_escape k.data f _ hk]
      simp only [skipWs_cons_of_not (show isJsonWs ':' = false by decide)]
      rw [parseVal_roundtrip v f
        (',' :: (jsonStringifyFields ((k2, v2) :: tl) ++ '}' :: rest)) hfv
        (head_not_digit (by decide) _)]
      simp only [skipWs_cons_of_not (show isJsonWs ',' = false by decide)]
      obtain ⟨Z, hZ⟩ : ∃ Z, jsonStringifyFields ((k2, v2) :: tl) ++ '}' :: rest =
          '"' :: Z := by
        cases tl with
        | nil =>
          exact ⟨escapeChars k2.data ++ '"' :: (':' :: (jsonStringifyV v2 ++ '}' :: rest)),
            by simp [jsonStringifyFields, quoteChars]⟩
        | cons f3 fs3 =>
          exact ⟨escapeChars k2.data ++ '"' :: (':' :: (jsonStringifyV v2 ++
              ',' :: (jsonStringifyFields (f3 :: fs3) ++ '}' :: rest))),
            by simp [jsonStringifyFields, quoteChars]⟩
      have hrec : parseObjFields f (skipWs (jsonStringifyFields ((k2, v2) :: tl) ++
          '}' :: rest)) = some ((k2, v2) :: tl, rest) := by
        rw [hZ, skipWs_cons_of_not (show isJsonWs '"' = false by decide), ← hZ]
        exact parseObjFields_roundtrip ((k2, v2) :: tl) f rest (by simp) hft
      simp [hrec, stringMk_data]

end

theorem escapeChar_length_pos (c : Char) : 1 ≤ (escapeChar c).length := by
  unfold escapeChar
  split_ifs <;> simp

theorem escapeChars_length_ge (cs : List Char) : cs.length ≤ (escapeChars cs).length := by
  induction cs with
  | nil => simp [escapeChars]
  | cons c cs ih =>
    have h1 := escapeChar_length_pos c
    have h2 : escapeChars (c :: cs) = escapeChar c ++ escapeChars cs := by simp [escapeChars]
    rw [h2, List.length_append]
    simp only [List.length_cons]
    omega

mutual

theorem fuelV_le : ∀ v : JValue, fuelV v ≤ 2 * (jsonStringifyV v).length
  | .null => by simp [fuelV, jsonStringifyV]
  | .bool true => by simp [fuelV, jsonStringifyV]
  | .bool false => by simp [fuelV, jsonStringifyV]
  | .num n => by
    have h1 : 1 ≤ (intToChars n).length := by
      unfold intToChars
      split
      · simp
      · obtain ⟨d, ds, hds⟩ : ∃ d ds, natToDigits n.natAbs = d :: ds := by
          cases h : natToDigits n.natAbs with
          | nil => exact absurd h (natToDigits_ne_nil _)
          | cons d ds => exact ⟨d, ds, rfl⟩
        simp [hds]
    have e1 : fuelV (JValue.num n) = 1 := rfl
    have e2 : jsonStringifyV (JValue.num n) = intToChars n := rfl
    rw [e1, e2]
    omega
  | .str s => by
    have e1 : fuelV (JValue.str s) = s.data.length + 2 := rfl
    have e2 : jsonStringifyV (JValue.str s) = quoteChars s.data := rfl
    have h1 := escapeChars_length_ge s.data
    rw [e1, e2]
    simp [quoteChars, List.length_append]
    have hsl : s.length = s.data.length := rfl
    omega
  | .arr xs => by
    have e1 : fuelV (JValue.arr xs) = 2 + fuelElems xs := rfl
    have e2 : jsonStringifyV (JValue.arr xs) = '[' :: jsonStringifyElems xs ++ [']'] := rfl
    have h1 := fuelElems_le xs
    rw [e1, e2]
    simp [List.length_append]
    omega
  | .obj fs => by
    have e1 : fuelV (JValue.obj fs) = 2 + fuelFields fs := rfl
    have e2 : jsonStringifyV (JValue.obj fs) = '{' :: jsonStringifyFields fs ++ ['}'] := rfl
    have h1 := fuelFields_le fs
    rw [e1, e2]
    simp [List.length_append]
    omega

theorem fuelElems_le : ∀ xs : List JValue, fuelElems xs ≤ 2 * (jsonStringifyElems xs).length + 2
  | [] => by simp [fuelElems]
  | [x] => by
    have e1 : fuelElems [x] = 1 + fuelV x + fuelElems [] := rfl
    have e2 : fuelElems ([] : List JValue) = 0 := rfl
    have e3 : jsonStringifyElems [x] = jsonStringifyV x := rfl
    have h1 := fuelV_le x
    rw [e1, e2, e3]
    omega
  | x :: y :: tl => by
    have e1 : fuelElems (x :: y :: tl) = 1 + fuelV x + fuelElems (y :: tl) := rfl
    have e2 : jsonStringifyElems (x :: y :: tl) =
        jsonStringifyV x ++ ',' :: jsonStringifyElems (y :: tl) := rfl
    have h1 := fuelV_le x
    have h2 := fuelElems_le (y :: tl)
    rw [e1, e2]
    simp [List.length_append]
    omega

theorem fuelFields_le :
    ∀ fs : List (String × JValue), fuelFields fs ≤ 2 * (jsonStringifyFields fs).length + 2
  | [] => by simp [fuelFields]
  | [(k, v)] => by
    have e1 : fuelFields [(k, v)] = 2 + k.data.length + fuelV v + fuelFields [] := rfl
    have e2 : fuelFields ([] : List (String × JValue)) = 0 := rfl
    have e3 : jsonStringifyFields [(k, v)] = quoteChars k.data ++ ':' :: jsonStringifyV v := rfl
    have h1 := fuelV_le v
    have h2 := escapeChars_length_ge k.data
    rw [e1, e2, e3]
    simp [quoteChars, List.length_append]
    have hkl : k.length = k.data.length := rfl
    omega
  | (k, v) :: (k2, v2) :: tl => by
    have e1 : fuelFields ((k, v) :: (k2, v2) :: tl) =
        2 + k.data.length + fuelV v + fuelFields ((k2, v2) :: tl) := rfl
    have e2 : jsonStringifyFields ((k, v) :: (k2, v2) :: tl) =
        quoteChars k.data ++ ':' :: jsonStringifyV v ++
          ',' :: jsonStringifyFields ((k2, v2) :: tl) := rfl
    have h1 := fuelV_le v
    have h2 := escapeChars_length_ge k.data
    have h3 := fuelFields_le ((k2, v2) :: tl)
    rw [e1, e2]
    simp [quoteChars, List.length_append]
    have hkl : k.length = k.data.length := rfl
    omega

end

/-- The composed round trip: parsing the compact rendering of any JSON value
recovers that value. -/
theorem jsonParse_jsonStringify (v : JValue) : jsonParse (jsonStringify v) = some v := by
  unfold jsonParse jsonStringify
  rw [show (String.mk (jsonStringifyV v)).data = jsonStringifyV v from rfl]
  have hb := fuelV_le v
  have hrt := parseVal_roundtrip v (2 * (jsonStringifyV v).length + 2) []
    (by omega) (by intro c hc; simp at hc)
  rw [show jsonStringifyV v ++ ([] : List Char) = jsonStringifyV v from by simp] at hrt
  rw [hrt]
  simp [skipWs]

/-! ### `stripJsonMarkdown` on serialized objects -/

theorem dropWhile_noop {p : Char → Bool} {cs : List Char}
    (h : ∀ c ∈ cs.head?, p c = false) : cs.dropWhile p = cs := by
  cases cs with
  | nil => rfl
  | cons c t =>
    have hc := h c (by simp)
    simp [List.dropWhile_cons, hc]

theorem trimChars_noop {cs : List Char} (h1 : ∀ c ∈ cs.head?, isTrimWs c = false)
    (h2 : ∀ c ∈ cs.getLast?, isTrimWs c = false) : trimChars cs = cs := by
  unfold trimChars
  rw [dropWhile_noop h1]
  have h2' : ∀ c ∈ cs.reverse.head?, isTrimWs c = false := by
    intro c hc
    rw [List.head?_reverse] at hc
    exact h2 c hc
  rw [dropWhile_noop h2', List.reverse_reverse]

theorem trimChars_wrap {cs : List Char} (c1 c2 : Char) (hw1 : isTrimWs c1 = true)
    (hw2 : isTrimWs c2 = true) (h1 : ∀ c ∈ cs.head?, isTrimWs c = false)
    (h2 : ∀ c ∈ cs.getLast?, isTrimWs c = false) :
    trimChars (c1 :: (cs ++ [c2])) = cs := by
  unfold trimChars
  rw [List.dropWhile_cons]
  rw [if_pos hw1]
  cases cs with
  | nil => simp [List.dropWhile_cons, hw2]
  | cons c0 t =>
    have hc0 := h1 c0 (by simp)
    rw [show ((c0 :: t) ++ [c2]) = c0 :: (t ++ [c2]) from rfl]
    rw [List.dropWhile_cons, if_neg (by simp [hc0])]
    rw [show (c0 :: (t ++ [c2])).reverse = c2 :: ((c0 :: t).reverse) from by simp]
    rw [List.dropWhile_cons, if_pos hw2]
    have hrev : ∀ c ∈ (c0 :: t).reverse.head?, isTrimWs c = false := by
      intro c hc
      rw [List.head?_reverse] at hc
      exact h2 c hc
    rw [dropWhile_noop hrev, List.reverse_reverse]

theorem braceSlice_full {cs : List Char} (h1 : cs.head? = some '{')
    (h2 : cs.getLast? = some '}') (hlen : 2 ≤ cs.length) : braceSlice cs = some cs := by
  obtain ⟨t, rfl⟩ : ∃ t, cs = '{' :: t := by
    cases cs with
    | nil => simp at h1
    | cons c t =>
      simp at h1
      exact ⟨t, by rw [h1]⟩
  have hfind1 : ('{' :: t).findIdx? (fun c => c = '{') = some 0 := by
    simp [List.findIdx?_cons]
  obtain ⟨r, hr⟩ : ∃ r, ('{' :: t).reverse = '}' :: r := by
    have : ('{' :: t).reverse.head? = some '}' := by
      rw [List.head?_reverse]; exact h2
    cases hrev : ('{' :: t).reverse with
    | nil => rw [hrev] at this; simp at this
    | cons a r =>
      rw [hrev] at this
      simp at this
      exact ⟨r, by rw [this]⟩
  have hfind2 : ('{' :: t).reverse.findIdx? (fun c => c = '}') = some 0 := by
    rw [hr]
    simp [List.findIdx?_cons]
  unfold braceSlice
  rw [hfind1, hfind2]
  have hj : ('{' :: t).length - 1 - 0 = ('{' :: t).length - 1 := by omega
  have hpos : 0 < ('{' :: t).length - 1 := by
    simp at hlen ⊢
    omega
  simp only [hj]
  rw [if_pos hpos]
  have htake : (('{' :: t).drop 0).take (('{' :: t).length - 1 + 1) = '{' :: t := by
    have he : ('{' :: t).length - 1 + 1 = ('{' :: t).length := by
      simp
    rw [he, List.drop_zero, List.take_length]
  rw [htake]

theorem head_isTrimWs_false {cs : List Char} {c0 : Char} (h : cs.head? = some c0)
    (hw : isTrimWs c0 = false) : ∀ c ∈ cs.head?, isTrimWs c = false := by
  intro c hc
  rw [h] at hc
  simp at hc
  subst hc
  exact hw

theorem getLast_isTrimWs_false {cs : List Char} {c0 : Char} (h : cs.getLast? = some c0)
    (hw : isTrimWs c0 = false) : ∀ c ∈ cs.getLast?, isTrimWs c = false := by
  intro c hc
  rw [h] at hc
  simp at hc
  subst hc
  exact hw

/-- Unfolding `stripJsonMarkdown` once the fence stage is settled. -/
theorem stripJsonMarkdown_via (text : String) (cleaned : List Char)
    (h : (match fenceStrip (trimChars text.data) with
          | some inner => inner
          | none => trimChars text.data) = cleaned) :
    stripJsonMarkdown text =
      (match braceSlice cleaned with
       | some jsonText => String.mk ((trimChars jsonText).filter (fun c => c ≠ '│'))
       | none => String.mk cleaned) := by
  simp only [stripJsonMarkdown]
  rw [h]

theorem stripJsonMarkdown_objText {cs : List Char} (h1 : cs.head? = some '{')
    (h2 : cs.getLast? = some '}') (hlen : 2 ≤ cs.length) (hbar : '│' ∉ cs) :
    stripJsonMarkdown (String.mk cs) = String.mk cs := by
  have hh := head_isTrimWs_false h1 (by decide)
  have hl := getLast_isTrimWs_false h2 (by decide)
  have htrim : trimChars cs = cs := trimChars_noop hh hl
  have hfence : fenceStrip cs = none := by
    obtain ⟨t, rfl⟩ : ∃ t, cs = '{' :: t := by
      cases cs with
      | nil => simp at h1
      | cons c t =>
        simp at h1
        exact ⟨t, by rw [h1]⟩
    unfold fenceStrip
    rw [if_neg (by simp [listStartsWith, List.isPrefixOf])]
  rw [stripJsonMarkdown_via (String.mk cs) cs
    (by rw [show (String.mk cs).data = cs from rfl, htrim, hfence])]
  rw [braceSlice_full h1 h2 hlen]
  show String.mk ((trimChars cs).filter (fun c => c ≠ '│')) = String.mk cs
  rw [htrim]
  congr 1
  apply List.filter_eq_self.mpr
  intro a ha
  simp only [decide_eq_true_eq, ne_eq]
  intro hEq
  exact hbar (hEq ▸ ha)

theorem fenceStrip_fenced (inner : List Char) :
    fenceStrip ('`' :: '`' :: '`' :: 'j' :: 's' :: 'o' :: 'n' :: '\n' ::
        (inner ++ ['\n', '`', '`', '`'])) =
      some (trimChars ('\n' :: (inner ++ ['\n']))) := by
  have hEnds : listEndsWith ('\n' :: (inner ++ ['\n', '`', '`', '`'])) ['`', '`', '`'] = true := by
    have hrev : ('\n' :: (inner ++ ['\n', '`', '`', '`'])).reverse =
        '`' :: '`' :: '`' :: '\n' :: (inner.reverse ++ ['\n']) := by
      simp
    simp only [listEndsWith, hrev]
    rfl
  simp only [fenceStrip]
  rw [if_pos (by rfl)]
  rw [show ('`' :: '`' :: '`' :: 'j' :: 's' :: 'o' :: 'n' :: '\n' ::
      (inner ++ ['\n', '`', '`', '`'])).drop 3 =
      'j' :: 's' :: 'o' :: 'n' :: '\n' :: (inner ++ ['\n', '`', '`', '`']) from rfl]
  rw [if_pos (show listStartsWith
    ('j' :: 's' :: 'o' :: 'n' :: '\n' :: (inner ++ ['\n', '`', '`', '`']))
    ['j', 's', 'o', 'n'] = true from rfl)]
  rw [show ('j' :: 's' :: 'o' :: 'n' :: '\n' :: (inner ++ ['\n', '`', '`', '`'])).drop 4 =
      '\n' :: (inner ++ ['\n', '`', '`', '`']) from rfl]
  rw [if_pos hEnds]
  have hsub : ('\n' :: (inner ++ ['\n', '`', '`', '`'])).length - 3 = inner.length + 2 := by
    simp
  rw [hsub]
  have htake : ('\n' :: (inner ++ ['\n', '`', '`', '`'])).take (inner.length + 2) =
      '\n' :: (inner ++ ['\n']) := by
    rw [show inner.length + 2 = (inner.length + 1) + 1 from rfl]
    rw [List.take_succ_cons]
    rw [List.take_append_eq_append_take]
    rw [List.take_of_length_le (by omega)]
    rw [show inner.length + 1 - inner.length = 1 from by omega]
    rfl
  rw [htake]

theorem stripJsonMarkdown_fence (t : String) (h1 : t.data.head? = some '{')
    (h2 : t.data.getLast? = some '}') :
    stripJsonMarkdown ("```json\n" ++ t ++ "\n```") = stripJsonMarkdown t := by
  have hh := head_isTrimWs_false h1 (by decide)
  have hl := getLast_isTrimWs_false h2 (by decide)
  have hdata : ("```json\n" ++ t ++ "\n```").data =
      '`' :: '`' :: '`' :: 'j' :: 's' :: 'o' :: 'n' :: '\n' ::
        (t.data ++ ['\n', '`', '`', '`']) := by
    simp [String.data_append]
  -- trimming the fenced text is a no-op: it starts and ends with a backtick
  have htrimBig : trimChars ("```json\n" ++ t ++ "\n```").data =
      ("```json\n" ++ t ++ "\n```").data := by
    apply trimChars_noop
    · rw [hdata]
      intro c hc
      simp at hc
      subst hc
      decide
    · rw [hdata]
      intro c hc
      rw [show ('`' :: '`' :: '`' :: 'j' :: 's' :: 'o' :: 'n' :: '\n' ::
          (t.data ++ ['\n', '`', '`', '`'])).getLast? = some '`' from by
        rw [← List.head?_reverse]
        simp] at hc
      simp at hc
      subst hc
      decide
  have hfenceBig : fenceStrip ("```json\n" ++ t ++ "\n```").data = some t.data := by
    rw [hdata, fenceStrip_fenced t.data]
    rw [trimChars_wrap '\n' '\n' (by decide) (by decide) hh hl]
  have htrimSmall : trimChars t.data = t.data := trimChars_noop hh hl
  have hfenceSmall : fenceStrip t.data = none := by
    obtain ⟨t0, ht0⟩ : ∃ t0, t.data = '{' :: t0 := by
      cases hcs : t.data with
      | nil => rw [hcs] at h1; simp at h1
      | cons c t0 =>
        rw [hcs] at h1
        simp at h1
        exact ⟨t0, by rw [h1]⟩
    rw [ht0]
    unfold fenceStrip
    rw [if_neg (by simp [listStartsWith, List.isPrefixOf])]
  rw [stripJsonMarkdown_via ("```json\n" ++ t ++ "\n```") t.data
    (by rw [htrimBig, hfenceBig]),
    stripJsonMarkdown_via t t.data (by rw [htrimSmall, hfenceSmall])]

theorem objStringify_head (l : List (String × JValue)) :
    (jsonStringifyV (.obj l)).head? = some '{' := rfl

theorem objStringify_last (l : List (String × JValue)) :
    (jsonStringifyV (.obj l)).getLast? = some '}' := by
  show ('{' :: (jsonStringifyFields l ++ ['}'])).getLast? = some '}'
  rw [← List.head?_reverse]
  simp

theorem objStringify_len (l : List (String × JValue)) :
    2 ≤ (jsonStringifyV (.obj l)).length := by
  show 2 ≤ ('{' :: (jsonStringifyFields l ++ ['}'])).length
  simp

theorem processJsonToolCall_payload (name : String) (params : List (String × JValue)) :
    processJsonToolCall (.obj [("name", .str name), ("parameters", .obj params)]) =
      some { id := none, name := name, args := some (.obj params) } := by
  simp [processJsonToolCall, jlookup]

theorem parseToolCallsStripped_payload (name : String) (params : List (String × JValue))
    (promptId : String) :
    parseToolCallsStripped (jsonStringify (.obj [("name", .str name),
      ("parameters", .obj params)])) promptId =
      [{ id := none, name := name, args := some (.obj params) }] := by
  simp only [parseToolCallsStripped,
    jsonParse_jsonStringify (.obj [("name", .str name), ("parameters", .obj params)]),
    processJsonToolCall_payload]
  simp

/-! ### Structure of `processFunctionCalls` -/

/-- The ids carried by the function-response parts of a message, in order. -/
def partCallIds (parts : List GPart) : List String :=
  parts.filterMap (fun p =>
    match p with
    | .functionResponse _ id _ => some id
    | _ => none)

/-- The call id an invocation receives (`functionCall.id ?? promptId-index`). -/
def callIdOf (promptId : String) (ic : Nat × FunctionCallM) : String :=
  ic.2.id.getD (promptId ++ "-" ++ toString ic.1)

/-- Whether an invocation is handled synchronously inside the loop
(`complete_task` or a name missing from the allowed set), rather than being
scheduled through `executeToolCall`. -/
def isSyncHandled (env : AgentEnv) (c : FunctionCallM) : Bool :=
  c.name == TASK_COMPLETE_TOOL_NAME ||
    !((TASK_COMPLETE_TOOL_NAME :: env.registryToolNames).contains c.name)

/-- The request an authorized invocation sends to the tool layer. -/
def requestOf (promptId : String) (ic : Nat × FunctionCallM) : ToolCallRequestInfo :=
  { callId := callIdOf promptId ic, name := ic.2.name, args := ic.2.args.getD (.obj []),
    prompt_id := promptId }

theorem stepCall_proj (env : AgentEnv) (promptId : String) (s : ProcState) (i : Nat)
    (c : FunctionCallM) :
    ((stepCall env promptId s (i, c)).toolExecutionRequests =
      s.toolExecutionRequests ++
        (if isSyncHandled env c then [] else [requestOf promptId (i, c)])) ∧
    (partCallIds (stepCall env promptId s (i, c)).syncResponseParts =
      partCallIds s.syncResponseParts ++
        (if isSyncHandled env c then [callIdOf promptId (i, c)] else [])) ∧
    ((stepCall env promptId s (i, c)).syncResponseParts.length =
      s.syncResponseParts.length + (if isSyncHandled env c then 1 else 0)) := by
  by_cases h1 : c.name = TASK_COMPLETE_TOOL_NAME
  · have hsync : isSyncHandled env c = true := by simp [isSyncHandled, h1]
    by_cases h2 : s.taskCompleted
    · refine ⟨?_, ?_, ?_⟩ <;>
        simp [stepCall, h1, h2, hsync, partCallIds, callIdOf, List.filterMap_append]
    · cases hOC : env.outputConfig with
      | none =>
        refine ⟨?_, ?_, ?_⟩ <;>
          simp [stepCall, h1, h2, hOC, hsync, partCallIds, callIdOf, List.filterMap_append]
      | some oc =>
        cases hG : jget (c.args.getD (.obj [])) oc.outputName with
        | none =>
          refine ⟨?_, ?_, ?_⟩ <;>
            simp [stepCall, h1, h2, hOC, hG, hsync, partCallIds, callIdOf,
              List.filterMap_append]
        | some ov =>
          cases hSP : oc.safeParse ov with
          | success dat =>
            refine ⟨?_, ?_, ?_⟩ <;>
              simp [stepCall, h1, h2, hOC, hG, hSP, hsync, partCallIds, callIdOf,
                List.filterMap_append]
          | failure msg =>
            refine ⟨?_, ?_, ?_⟩ <;>
              simp [stepCall, h1, h2, hOC, hG, hSP, hsync, partCallIds, callIdOf,
                List.filterMap_append]
  · by_cases h2 : (TASK_COMPLETE_TOOL_NAME :: env.registryToolNames).contains c.name
    · have h3 : c.name ∈ env.registryToolNames := by
        simp at h2
        rcases h2 with h | h
        · exact absurd h h1
        · exact h
      have hsync : isSyncHandled env c = false := by simp [isSyncHandled, h1, h3]
      refine ⟨?_, ?_, ?_⟩ <;>
        simp [stepCall, h1, h3, hsync, partCallIds, callIdOf, requestOf,
          List.filterMap_append]
    · have h3 : c.name ∉ env.registryToolNames := by
        simp at h2
        exact h2.2
      have hsync : isSyncHandled env c = true := by simp [isSyncHandled, h1, h3]
      refine ⟨?_, ?_, ?_⟩ <;>
        simp [stepCall, h1, h3, hsync, partCallIds, callIdOf, List.filterMap_append]

theorem foldl_stepCall_proj (env : AgentEnv) (promptId : String) :
    ∀ (l : List (Nat × FunctionCallM)) (s : ProcState),
      ((l.foldl (stepCall env promptId) s).toolExecutionRequests =
        s.toolExecutionRequests ++
          (l.filter (fun ic => !(isSyncHandled env ic.2))).map (requestOf promptId)) ∧
      (partCallIds (l.foldl (stepCall env promptId) s).syncResponseParts =
        partCallIds s.syncResponseParts ++
          (l.filter (fun ic => isSyncHandled env ic.2)).map (callIdOf promptId)) ∧
      ((l.foldl (stepCall env promptId) s).syncResponseParts.length =
        s.syncResponseParts.length + (l.filter (fun ic => isSyncHandled env ic.2)).length) := by
  intro l
  induction l with
  | nil => intro s; simp
  | cons ic l ih =>
    intro s
    obtain ⟨i, c⟩ := ic
    obtain ⟨hr, hi, hl⟩ := stepCall_proj env promptId s i c
    obtain ⟨ihr, ihi, ihl⟩ := ih (stepCall env promptId s (i, c))
    rw [List.foldl_cons] at *
    cases hsync : isSyncHandled env c with
    | true =>
      refine ⟨?_, ?_, ?_⟩
      · rw [ihr, hr]
        simp [hsync]
      · rw [ihi, hi]
        simp [hsync]
      · rw [ihl, hl]
        simp [hsync]
        omega
    | false =>
      refine ⟨?_, ?_, ?_⟩
      · rw [ihr, hr]
        simp [hsync]
      · rw [ihi, hi]
        simp [hsync]
      · rw [ihl, hl]
        simp [hsync]

theorem replaceFirstLlmContent_single (nm id : String) (resp : JValue) (summary : String) :
    ∃ resp', replaceFirstLlmContent [GPart.functionResponse nm id resp] summary =
      [GPart.functionResponse nm id resp'] := by
  cases resp with
  | obj fields =>
    cases hL : jlookup fields "llmContent" with
    | none => exact ⟨.obj fields, by simp [replaceFirstLlmContent, hL]⟩
    | some v =>
      by_cases hT : jtruthy v
      · exact ⟨.obj (jsetField fields "llmContent" (.str summary)),
          by simp [replaceFirstLlmContent, hL, hT]⟩
      · exact ⟨.obj fields, by simp [replaceFirstLlmContent, hL, hT]⟩
  | str s => exact ⟨.str s, by simp [replaceFirstLlmContent]⟩
  | num n => exact ⟨.num n, by simp [replaceFirstLlmContent]⟩
  | bool b => exact ⟨.bool b, by simp [replaceFirstLlmContent]⟩
  | null => exact ⟨.null, by simp [replaceFirstLlmContent]⟩
  | arr xs => exact ⟨.arr xs, by simp [replaceFirstLlmContent]⟩

theorem runToolExecution_single (env : AgentEnv) (req : ToolCallRequestInfo)
    (H : ∃ nm resp, (env.executeToolCall req).responseParts =
      [GPart.functionResponse nm req.callId resp]) :
    ∃ nm' resp', (runToolExecution env req).1 =
      [GPart.functionResponse nm' req.callId resp'] := by
  obtain ⟨nm, resp, hR⟩ := H
  simp only [runToolExecution]
  cases hS : env.summarizeToolOutput with
  | false => exact ⟨nm, resp, by simp [hS, hR]⟩
  | true =>
    rw [hR]
    cases hSum : env.summarize [GPart.functionResponse nm req.callId resp] with
    | none => exact ⟨nm, resp, by simp [hS, hSum]⟩
    | some summary =>
      obtain ⟨resp', hRep⟩ := replaceFirstLlmContent_single nm req.callId resp summary
      refine ⟨nm, resp', ?_⟩
      simp only [hS, hSum]
      simpa using hRep

theorem asyncParts_callIds (env : AgentEnv)
    (H : ∀ req, ∃ nm resp, (env.executeToolCall req).responseParts =
      [GPart.functionResponse nm req.callId resp]) :
    ∀ reqs : List ToolCallRequestInfo,
      partCallIds ((reqs.map (fun r => (runToolExecution env r).1)).flatten) =
        reqs.map (fun r => r.callId) ∧
      ((reqs.map (fun r => (runToolExecution env r).1)).flatten).length = reqs.length := by
  intro reqs
  induction reqs with
  | nil => simp [partCallIds]
  | cons r reqs ih =>
    obtain ⟨nm', resp', hR⟩ := runToolExecution_single env r (H r)
    obtain ⟨ih1, ih2⟩ := ih
    constructor
    · simp only [List.map_cons, List.flatten_cons, hR, partCallIds, List.filterMap_append]
      simp only [partCallIds] at ih1
      simp [ih1]
    · simp [hR, ih2]

theorem partCallIds_nil : partCallIds [] = [] := rfl

theorem length_filter_sync (env : AgentEnv) (l : List (Nat × FunctionCallM)) :
    (l.filter (fun ic => isSyncHandled env ic.2)).length +
      (l.filter (fun ic => !(isSyncHandled env ic.2))).length = l.length := by
  induction l with
  | nil => simp
  | cons a l ih =>
    by_cases h : isSyncHandled env a.2 <;> simp [List.filter_cons, h] <;> omega

theorem processFunctionCalls_parts (env : AgentEnv) (promptId : String)
    (calls : List FunctionCallM)
    (H : ∀ req, ∃ nm resp, (env.executeToolCall req).responseParts =
      [GPart.functionResponse nm req.callId resp]) :
    (processFunctionCalls env calls promptId).nextMessage.parts.length = calls.length ∧
    partCallIds (processFunctionCalls env calls promptId).nextMessage.parts =
      ((calls.enum.filter (fun ic => isSyncHandled env ic.2)).map (callIdOf promptId)) ++
      ((calls.enum.filter (fun ic => !(isSyncHandled env ic.2))).map (callIdOf promptId)) := by
  obtain ⟨hreq, hids, hlen⟩ := foldl_stepCall_proj env promptId calls.enum
    { taskCompleted := false, submittedOutput := none, syncResponseParts := [],
      toolExecutionRequests := [], events := [] }
  set s := calls.enum.foldl (stepCall env promptId)
    { taskCompleted := false, submittedOutput := none, syncResponseParts := [],
      toolExecutionRequests := [], events := [] } with hs
  simp only [partCallIds_nil, List.nil_append, List.length_nil, Nat.zero_add]
    at hreq hids hlen
  obtain ⟨hAid, hAlen⟩ := asyncParts_callIds env H s.toolExecutionRequests
  have hmm : ((s.toolExecutionRequests.map (runToolExecution env)).map Prod.fst).flatten =
      (s.toolExecutionRequests.map (fun r => (runToolExecution env r).1)).flatten := by
    rw [List.map_map]
    rfl
  have hreqId : s.toolExecutionRequests.map (fun r => r.callId) =
      (calls.enum.filter (fun ic => !(isSyncHandled env ic.2))).map (callIdOf promptId) := by
    rw [hreq, List.map_map]
    rfl
  have hplen : (s.syncResponseParts ++
      ((s.toolExecutionRequests.map (runToolExecution env)).map Prod.fst).flatten).length =
      calls.length := by
    rw [List.length_append, hmm, hAlen, hlen, hreq, List.length_map,
      length_filter_sync, List.enum_length]
  have hcond : (decide (calls.length > 0) &&
      (s.syncResponseParts ++
        ((s.toolExecutionRequests.map (runToolExecution env)).map Prod.fst).flatten).isEmpty &&
      !s.taskCompleted) = false := by
    cases hc : calls with
    | nil => subst hc; simp
    | cons c0 ctl =>
      have h0 : 0 < (s.syncResponseParts ++
          ((s.toolExecutionRequests.map (runToolExecution env)).map Prod.fst).flatten).length := by
        rw [hplen, hc]
        simp
      have : (s.syncResponseParts ++
          ((s.toolExecutionRequests.map (runToolExecution env)).map Prod.fst).flatten).isEmpty
          = false := by
        cases hE : (s.syncResponseParts ++
            ((s.toolExecutionRequests.map (runToolExecution env)).map Prod.fst).flatten) with
        | nil => rw [hE] at h0; simp at h0
        | cons x xs => simp
      rw [this]
      simp
  constructor
  · show (processFunctionCalls env calls promptId).nextMessage.parts.length = calls.length
    simp only [processFunctionCalls, ← hs, hcond, Bool.false_eq_true, if_false]
    exact hplen
  · show partCallIds (processFunctionCalls env calls promptId).nextMessage.parts = _
    simp only [processFunctionCalls, ← hs, hcond, Bool.false_eq_true, if_false]
    rw [show partCallIds (s.syncResponseParts ++
        ((s.toolExecutionRequests.map (runToolExecution env)).map Prod.fst).flatten) =
        partCallIds s.syncResponseParts ++
        partCallIds ((s.toolExecutionRequests.map (runToolExecution env)).map Prod.fst).flatten
      from by simp [partCallIds, List.filterMap_append]]
    rw [hids, hmm, hAid, hreqId]

/-! ### Claim C8: the tool-call parser on serialized payloads -/

/-- `JSON.stringify` of a single `\x7bname, parameters\x7d` object. -/
def toolCallPayload (name : String) (params : List (String × JValue)) : String :=
  jsonStringify (.obj [("name", .str name), ("parameters", .obj params)])

/-- Claim C8 (amended): for every JSON text produced by `JSON.stringify` of a
single `\x7bname, parameters\x7d` object (not containing the box-drawing bar
that `stripJsonMarkdown` removes), the tool-call parser returns exactly one
invocation with the serialized name and argument map, and parsing the payload
wrapped in a ```json markdown fence yields the same invocations as parsing the
bare payload.  The array half of the original claim is refuted by
`C8_array_counterexample`. -/
theorem C8_parser_roundtrip (name : String) (params : List (String × JValue))
    (promptId : String)
    (hbar : '│' ∉ (toolCallPayload name params).data) :
    parseToolCalls (toolCallPayload name params) promptId =
      [{ id := none, name := name, args := some (JValue.obj params) }] ∧
    parseToolCalls ("```json\n" ++ toolCallPayload name params ++ "\n```") promptId =
      parseToolCalls (toolCallPayload name params) promptId := by
  have hdata : (toolCallPayload name params).data =
      jsonStringifyV (.obj [("name", .str name), ("parameters", .obj params)]) := rfl
  have h1 : (toolCallPayload name params).data.head? = some '{' := by
    rw [hdata]; exact objStringify_head _
  have h2 : (toolCallPayload name params).data.getLast? = some '}' := by
    rw [hdata]; exact objStringify_last _
  have hlen : 2 ≤ (toolCallPayload name params).data.length := by
    rw [hdata]; exact objStringify_len _
  have hstrip : stripJsonMarkdown (toolCallPayload name params) = toolCallPayload name params := by
    have h := stripJsonMarkdown_objText h1 h2 hlen hbar
    rwa [stringMk_data] at h
  constructor
  · rw [show parseToolCalls (toolCallPayload name params) promptId =
        parseToolCallsStripped (stripJsonMarkdown (toolCallPayload name params)) promptId
      from rfl, hstrip]
    exact parseToolCallsStripped_payload name params promptId
  · rw [show parseToolCalls ("```json\n" ++ toolCallPayload name params ++ "\n```") promptId =
        parseToolCallsStripped
          (stripJsonMarkdown ("```json\n" ++ toolCallPayload name params ++ "\n```")) promptId
      from rfl,
      stripJsonMarkdown_fence (toolCallPayload name params) h1 h2]
    rfl

/-- Claim C8, counterexample to the array half: `JSON.stringify` of an array
of two `\x7bname, parameters\x7d` objects parses to no invocation at all (the
brace-isolation step of `stripJsonMarkdown` slices from the first `\x7b` to the
last `\x7d`, producing invalid JSON, and the regex fallback matches nothing),
not to the two serialized invocations. -/
theorem C8_array_counterexample :
    jsonStringify (JValue.arr
        [JValue.obj [("name", JValue.str "a"), ("parameters", JValue.obj [])],
         JValue.obj [("name", JValue.str "b"), ("parameters", JValue.obj [])]]) =
      "[\x7b\"name\":\"a\",\"parameters\":\x7b\x7d\x7d,\x7b\"name\":\"b\",\"parameters\":\x7b\x7d\x7d]" ∧
    parseToolCalls
      "[\x7b\"name\":\"a\",\"parameters\":\x7b\x7d\x7d,\x7b\"name\":\"b\",\"parameters\":\x7b\x7d\x7d]" "p" = [] ∧
    ([] : List FunctionCallM) ≠
      [{ id := none, name := "a", args := some (JValue.obj []) },
       { id := none, name := "b", args := some (JValue.obj []) }] := by
  refine ⟨by decide, by decide, by decide⟩

/-- Claim C8, witness: the amended theorem at a concrete payload. -/
theorem C8_parser_roundtrip_witness :
    parseToolCalls (toolCallPayload "shell" [("cmd", JValue.str "ls")]) "p" =
      [{ id := none, name := "shell", args := some (JValue.obj [("cmd", JValue.str "ls")]) }] ∧
    parseToolCalls ("```json\n" ++ toolCallPayload "shell" [("cmd", JValue.str "ls")] ++ "\n```") "p" =
      parseToolCalls (toolCallPayload "shell" [("cmd", JValue.str "ls")]) "p" :=
  C8_parser_roundtrip "shell" [("cmd", JValue.str "ls")] "p" (by decide)

/-! ### Claim C10: abortCurrent on an empty stack or a null controller -/

/-- Claim C10: calling `abortCurrent` when the context stack is empty, or when
the top frame's turn controller is null, is a no-op in both manager variants:
the state is unchanged and no abort is delivered (the interrupt is silently
discarded). -/
theorem C10_abortCurrent_noop :
    (∀ st : SignalManagerState,
      st.getLast?.bind (fun ctx => ctx.currentTurnController) = none →
      abortCurrent st = (st, none)) ∧
    (∀ st : SignalManagerStateV2,
      st.getLast?.bind (fun ctx => ctx.currentTurnController) = none →
      abortCurrentV2 st = (st, none)) := by
  constructor
  · intro st h
    cases hL : st.getLast? with
    | none => simp [abortCurrent, hL]
    | some ctx =>
      rw [hL] at h
      simp only [Option.some_bind] at h
      simp [abortCurrent, hL, h]
  · intro st h
    cases hL : st.getLast? with
    | none => simp [abortCurrentV2, hL]
    | some ctx =>
      rw [hL] at h
      simp only [Option.some_bind] at h
      simp [abortCurrentV2, hL, h]

/-- Claim C10, witness: the no-op on the empty stack (first variant) and on a
single frame with a null controller (second variant). -/
theorem C10_abortCurrent_noop_witness :
    abortCurrent [] = ([], none) ∧
    abortCurrentV2 [{ currentTurnController := none, interruptCount := 0 }] =
      ([{ currentTurnController := none, interruptCount := 0 }], none) :=
  ⟨C10_abortCurrent_noop.1 [] (by decide),
   C10_abortCurrent_noop.2 [{ currentTurnController := none, interruptCount := 0 }] (by rfl)⟩

/-! ### Claim C9: the Gemma-compatible tool-schema transform -/

/-- Claim C9: on the local-model path, when the system prompt references the
`$\x7btool_code\x7d` token the template input is populated with the
Gemma-transformed declarations; the per-tool transform renames
`parametersJsonSchema` to `parameters` and removes every parameter literally
named `description` from the properties map and from the required list, while
preserving the tool's name, its (tool-level) description, the other
parameters, and the schema's remaining fields. -/
theorem C9_gemma_transform (tool : FunctionDeclaration) (schema : JSchema)
    (props : List (String × JValue))
    (hpjs : tool.parametersJsonSchema = some schema)
    (hprops : schema.properties = some props)
    (systemPrompt : String) (tools : List FunctionDeclaration)
    (href : systemPromptReferencesToolCode systemPrompt = true) :
    gemmaTransformTool tool =
      { name := tool.name, description := tool.description,
        parameters := some
          { properties := some (props.filter (fun kv => kv.1 ≠ "description")),
            required := schema.required.map (fun reqList =>
              reqList.filter (fun n => n ≠ "description")),
            rest := schema.rest },
        parametersJsonSchema := none } ∧
    toolCodeTemplateInput systemPrompt tools = some (tools.map gemmaTransformTool) := by
  constructor
  · obtain ⟨tname, tdesc, tparams, tpjs⟩ := tool
    obtain ⟨sprops, sreq, srest⟩ := schema
    simp only at hpjs hprops
    subst hpjs
    subst hprops
    cases sreq with
    | none => simp [gemmaTransformTool]
    | some reqList => simp [gemmaTransformTool]
  · simp [toolCodeTemplateInput, href, prepareGemmaToolCodeDecls]

/-- Claim C9, witness: the transform at a concrete declaration whose schema
holds a parameter named `description`, with a system prompt containing the
token. -/
theorem C9_gemma_transform_witness :
    gemmaTransformTool
      { name := "t", description := some "a tool",
        parameters := none,
        parametersJsonSchema := some
          { properties := some [("description", JValue.str "x"), ("path", JValue.str "y")],
            required := some ["description", "path"],
            rest := [("type", JValue.str "object")] } } =
      { name := "t", description := some "a tool",
        parameters := some
          { properties := some
              ([("description", JValue.str "x"), ("path", JValue.str "y")].filter
                (fun kv => kv.1 ≠ "description")),
            required := (some ["description", "path"]).map (fun reqList =>
              reqList.filter (fun n => n ≠ "description")),
            rest := [("type", JValue.str "object")] },
        parametersJsonSchema := none } ∧
    toolCodeTemplateInput "use $\x7btool_code\x7d"
        [{ name := "t", description := some "a tool",
           parameters := none,
           parametersJsonSchema := some
             { properties := some [("description", JValue.str "x"), ("path", JValue.str "y")],
               required := some ["description", "path"],
               rest := [("type", JValue.str "object")] }}] =
      some ([{ name := "t", description := some "a tool",
               parameters := none,
               parametersJsonSchema := some
                 { properties := some [("description", JValue.str "x"), ("path", JValue.str "y")],
                   required := some ["description", "path"],
                   rest := [("type", JValue.str "object")] }}].map gemmaTransformTool) :=
  C9_gemma_transform
    { name := "t", description := some "a tool",
      parameters := none,
      parametersJsonSchema := some
        { properties := some [("description", JValue.str "x"), ("path", JValue.str "y")],
          required := some ["description", "path"],
          rest := [("type", JValue.str "object")] } }
    { properties := some [("description", JValue.str "x"), ("path", JValue.str "y")],
      required := some ["description", "path"],
      rest := [("type", JValue.str "object")] }
    [("description", JValue.str "x"), ("path", JValue.str "y")]
    rfl rfl "use $\x7btool_code\x7d" _ (by decide)

/-! ### Claim C5: the start-of-turn limit check -/

/-- Claim C5, counterexample: with a one-minute budget and a start time an
hour in the past (relative to any present instant modelled as 0), the limit
check still reports no termination and the loop proceeds into the model call:
`checkTermination` never tests the wall-clock timeout. -/
theorem C5_checkTermination_counterexample :
    checkTermination { max_turns := 100, max_time_minutes := 1 } (-3600000) 3 = none ∧
    turnLoopAction { max_turns := 100, max_time_minutes := 1 } (-3600000) 3 =
      LoopAction.startModelCall := by
  refine ⟨by decide, by decide⟩

/-- Claim C5 (amended): the start-of-turn limit check tests only the max-turns
limit.  Its result is independent of the start time, it never yields TIMEOUT,
and it yields MAX_TURNS exactly when a nonzero `max_turns` has been reached;
the loop starts a model call exactly when the check reports nothing. -/
theorem C5_checkTermination_only_max_turns (runConfig : AgentRunConfig)
    (startTime startTime' : Int) (turnCounter : Nat) :
    checkTermination runConfig startTime turnCounter =
      checkTermination runConfig startTime' turnCounter ∧
    checkTermination runConfig startTime turnCounter ≠ some AgentTerminateMode.TIMEOUT ∧
    (checkTermination runConfig startTime turnCounter = some AgentTerminateMode.MAX_TURNS ↔
      runConfig.max_turns ≠ 0 ∧ runConfig.max_turns ≤ turnCounter) ∧
    (turnLoopAction runConfig startTime turnCounter = LoopAction.startModelCall ↔
      checkTermination runConfig startTime turnCounter = none) := by
  refine ⟨rfl, ?_, ?_, ?_⟩ <;>
    by_cases h1 : runConfig.max_turns = 0 <;>
      by_cases h2 : runConfig.max_turns ≤ turnCounter <;>
        simp [checkTermination, turnLoopAction, h1, h2]

/-! ### Claim C4: the unified recovery block -/

/-- Claim C4: a recovery turn is attempted exactly for TIMEOUT, MAX_TURNS and
ERROR_NO_COMPLETE_TASK_CALL (never for ABORTED, GOAL or ERROR); the grace
window is the 60-second `GRACE_PERIOD_MS`; a recovery turn that stops with
GOAL makes the overall reason GOAL carrying the recovered result; any other
recovery outcome preserves the original reason and emits the failure as an
activity error; for a non-recoverable reason the state passes through
untouched. -/
theorem C4_recovery_policy :
    (∀ r : AgentTerminateMode, isRecoverableReason r = true ↔
      (r = AgentTerminateMode.TIMEOUT ∨ r = AgentTerminateMode.MAX_TURNS ∨
        r = AgentTerminateMode.ERROR_NO_COMPLETE_TASK_CALL)) ∧
    GRACE_PERIOD_MS = 60 * 1000 ∧
    (∀ (rc : AgentRunConfig) (reason : AgentTerminateMode) (fr res : Option String),
      isRecoverableReason reason = true →
      unifiedRecovery rc reason fr (.stop .GOAL res) =
        { terminateReason := .GOAL,
          finalResult := some (res.getD "Task completed during grace period."),
          events := (executeFinalWarningTurn reason (.stop .GOAL res)).2 }) ∧
    (∀ (rc : AgentRunConfig) (reason : AgentTerminateMode) (fr : Option String)
        (tr : AgentTurnResult),
      isRecoverableReason reason = true →
      (∀ res, tr ≠ .stop .GOAL res) →
      (unifiedRecovery rc reason fr tr).terminateReason = reason ∧
      ∃ c m, ActivityEvent.errorEv c none m ∈ (unifiedRecovery rc reason fr tr).events) ∧
    (∀ (rc : AgentRunConfig) (reason : AgentTerminateMode) (fr : Option String)
        (tr : AgentTurnResult),
      isRecoverableReason reason = false →
      unifiedRecovery rc reason fr tr =
        { terminateReason := reason, finalResult := fr, events := [] }) := by
  refine ⟨by intro r; cases r <;> decide, rfl, ?_, ?_, ?_⟩
  · intro rc reason fr res h
    simp [unifiedRecovery, h, executeFinalWarningTurn]
  · intro rc reason fr tr h htr
    cases reason with
    | ERROR => simp [isRecoverableReason] at h
    | ABORTED => simp [isRecoverableReason] at h
    | GOAL => simp [isRecoverableReason] at h
    | TIMEOUT =>
      cases tr with
      | continueTurn msg =>
        refine ⟨by simp [unifiedRecovery, isRecoverableReason, executeFinalWarningTurn],
          "timeout",
          "Agent timed out after " ++ toString rc.max_time_minutes ++ " minutes.", ?_⟩
        simp [unifiedRecovery, isRecoverableReason, executeFinalWarningTurn]
      | stop r' res =>
        cases r' <;> first
          | exact absurd rfl (htr res)
          | exact ⟨by simp [unifiedRecovery, isRecoverableReason, executeFinalWarningTurn],
              "timeout",
              "Agent timed out after " ++ toString rc.max_time_minutes ++ " minutes.",
              by simp [unifiedRecovery, isRecoverableReason, executeFinalWarningTurn]⟩
    | MAX_TURNS =>
      cases tr with
      | continueTurn msg =>
        refine ⟨by simp [unifiedRecovery, isRecoverableReason, executeFinalWarningTurn],
          "max_turns",
          "Agent reached max turns limit (" ++ toString rc.max_turns ++ ").", ?_⟩
        simp [unifiedRecovery, isRecoverableReason, executeFinalWarningTurn]
      | stop r' res =>
        cases r' <;> first
          | exact absurd rfl (htr res)
          | exact ⟨by simp [unifiedRecovery, isRecoverableReason, executeFinalWarningTurn],
              "max_turns",
              "Agent reached max turns limit (" ++ toString rc.max_turns ++ ").",
              by simp [unifiedRecovery, isRecoverableReason, executeFinalWarningTurn]⟩
    | ERROR_NO_COMPLETE_TASK_CALL =>
      cases tr with
      | continueTurn msg =>
        refine ⟨by simp [unifiedRecovery, isRecoverableReason, executeFinalWarningTurn],
          "protocol_violation",
          orDefault fr
            ("Agent stopped calling tools but did not call '" ++
              TASK_COMPLETE_TOOL_NAME ++ "'."), ?_⟩
        simp [unifiedRecovery, isRecoverableReason, executeFinalWarningTurn]
      | stop r' res =>
        cases r' <;> first
          | exact absurd rfl (htr res)
          | exact ⟨by simp [unifiedRecovery, isRecoverableReason, executeFinalWarningTurn],
              "protocol_violation",
              orDefault fr
                ("Agent stopped calling tools but did not call '" ++
                  TASK_COMPLETE_TOOL_NAME ++ "'."),
              by simp [unifiedRecovery, isRecoverableReason, executeFinalWarningTurn]⟩
  · intro rc reason fr tr h
    simp [unifiedRecovery, h]

/-- Claim C4, witness: a recoverable TIMEOUT whose grace turn reaches GOAL
becomes GOAL with the recovered result; a non-recoverable ABORTED passes
through untouched. -/
theorem C4_recovery_policy_witness :
    unifiedRecovery { max_turns := 5, max_time_minutes := 2 } .TIMEOUT none
        (.stop .GOAL (some "r")) =
      { terminateReason := .GOAL,
        finalResult := some ((some "r").getD "Task completed during grace period."),
        events := (executeFinalWarningTurn .TIMEOUT (.stop .GOAL (some "r"))).2 } ∧
    unifiedRecovery { max_turns := 5, max_time_minutes := 2 } .ABORTED (some "x")
        (.continueTurn { role := "user", parts := [] }) =
      { terminateReason := .ABORTED, finalResult := some "x", events := [] } :=
  ⟨C4_recovery_policy.2.2.1 { max_turns := 5, max_time_minutes := 2 } .TIMEOUT none
      (some "r") (by decide),
   C4_recovery_policy.2.2.2.2 { max_turns := 5, max_time_minutes := 2 } .ABORTED (some "x")
      (.continueTurn { role := "user", parts := [] }) (by decide)⟩

/-! ### Claim C3: output validation of complete_task -/

/-- Claim C3: with an output specification configured, a `complete_task` call
whose required output argument is missing records a tool-response part
carrying the `Missing required argument` error, and one whose argument fails
the validating schema records the validation error; in both cases completion
stays revoked (`taskCompleted` remains false), and a turn consisting of such
a call continues the loop with the aggregated responses as the next user
message instead of terminating with GOAL. -/
theorem C3_output_validation (env : AgentEnv) (oc : OutputConfig) (promptId : String)
    (s : ProcState) (i : Nat) (c : FunctionCallM)
    (hOC : env.outputConfig = some oc)
    (hName : c.name = TASK_COMPLETE_TOOL_NAME)
    (hTC : s.taskCompleted = false) :
    (jget (c.args.getD (.obj [])) oc.outputName = none →
      (stepCall env promptId s (i, c)).taskCompleted = false ∧
      (stepCall env promptId s (i, c)).syncResponseParts =
        s.syncResponseParts ++
          [GPart.functionResponse TASK_COMPLETE_TOOL_NAME (callIdOf promptId (i, c))
            (.obj [("error", .str (missingArgError oc.outputName))])]) ∧
    (∀ ov fl, jget (c.args.getD (.obj [])) oc.outputName = some ov →
      oc.safeParse ov = .failure fl →
      (stepCall env promptId s (i, c)).taskCompleted = false ∧
      (stepCall env promptId s (i, c)).syncResponseParts =
        s.syncResponseParts ++
          [GPart.functionResponse TASK_COMPLETE_TOOL_NAME (callIdOf promptId (i, c))
            (.obj [("error", .str ("Output validation failed: " ++ fl))])]) ∧
    (∀ text : String, jget (c.args.getD (.obj [])) oc.outputName = none →
      executeTurnModel env [c] text promptId =
        .continueTurn (processFunctionCalls env [c] promptId).nextMessage) := by
  refine ⟨?_, ?_, ?_⟩
  · intro hMiss
    constructor <;> simp [stepCall, hName, hOC, hTC, hMiss, callIdOf]
  · intro ov fl hOv hFl
    constructor <;> simp [stepCall, hName, hOC, hTC, hOv, hFl, callIdOf]
  · intro text hMiss
    have hNC : (processFunctionCalls env [c] promptId).taskCompleted = false := by
      simp only [processFunctionCalls, List.enum, List.enumFrom, List.foldl_cons,
        List.foldl_nil]
      simp [stepCall, hName, hOC, hMiss]
    simp only [executeTurnModel]
    rw [if_neg (by simp), if_neg (by simp [hNC])]

/-! ### Concrete executor fixtures -/

/-- The initial loop state of `processFunctionCalls`. -/
def procInit : ProcState :=
  { taskCompleted := false, submittedOutput := none, syncResponseParts := [],
    toolExecutionRequests := [], events := [] }

/-- A loop state in which a `complete_task` call has already been accepted. -/
def sCompleted : ProcState :=
  { taskCompleted := true, submittedOutput := some "done", syncResponseParts := [],
    toolExecutionRequests := [], events := [] }

/-- An output specification `\x7bResponse: string\x7d`: the schema accepts
exactly string values. -/
def respOutputConfig : OutputConfig :=
  { outputName := "Response",
    safeParse := fun v =>
      match v with
      | .str _ => .success v
      | _ => .failure "Expected string" }

/-- An executor context with the `\x7bResponse: string\x7d` output
specification and no registered tools. -/
def testEnvOut : AgentEnv :=
  { registryToolNames := [],
    outputConfig := some respOutputConfig,
    processOutput := none,
    summarizeToolOutput := false,
    executeToolCall := fun _ =>
      { responseParts := [], resultDisplay := "", error := none },
    summarize := fun _ => none }

/-- An executor context with no output specification and no registered
tools. -/
def testEnvNoOut : AgentEnv :=
  { registryToolNames := [],
    outputConfig := none,
    processOutput := none,
    summarizeToolOutput := false,
    executeToolCall := fun _ =>
      { responseParts := [], resultDisplay := "", error := none },
    summarize := fun _ => none }

/-- An executor context with one registered tool (`shell`) whose tool layer
answers every request with a single function response under the request's
call id. -/
def testEnvTools : AgentEnv :=
  { registryToolNames := ["shell"],
    outputConfig := none,
    processOutput := none,
    summarizeToolOutput := false,
    executeToolCall := fun req =>
      { responseParts :=
          [GPart.functionResponse req.name req.callId (.obj [("output", .str "ok")])],
        resultDisplay := "ok", error := none },
    summarize := fun _ => none }

/-- Claim C3, witness: a `complete_task` call missing the `Response` argument
under the `\x7bResponse: string\x7d` output specification. -/
theorem C3_output_validation_witness :
    ((stepCall testEnvOut "p" procInit
        (0, { id := none, name := "complete_task", args := some (.obj []) })).taskCompleted
          = false ∧
      (stepCall testEnvOut "p" procInit
        (0, { id := none, name := "complete_task", args := some (.obj []) })).syncResponseParts =
        procInit.syncResponseParts ++
          [GPart.functionResponse TASK_COMPLETE_TOOL_NAME
            (callIdOf "p" (0, { id := none, name := "complete_task", args := some (.obj []) }))
            (.obj [("error", .str (missingArgError respOutputConfig.outputName))])]) ∧
    executeTurnModel testEnvOut
        [{ id := none, name := "complete_task", args := some (.obj []) }] "" "p" =
      .continueTurn (processFunctionCalls testEnvOut
        [{ id := none, name := "complete_task", args := some (.obj []) }] "p").nextMessage := by
  have h := C3_output_validation testEnvOut respOutputConfig "p" procInit 0
    { id := none, name := "complete_task", args := some (.obj []) } rfl rfl rfl
  exact ⟨h.1 rfl, h.2.2 "" rfl⟩

/-! ### Claim C2: duplicate complete_task calls -/

/-- Claim C2, counterexample to the quoted error text: the duplicate-call
response carries the error "Task already marked complete in this turn.
Ignoring duplicate call.", which differs from the claimed exact text "Task
already marked complete in this turn.". -/
theorem C2_dup_error_counterexample :
    (stepCall testEnvNoOut "p" sCompleted
        (1, { id := none, name := "complete_task", args := none })).syncResponseParts =
      [GPart.functionResponse "complete_task" "p-1"
        (.obj [("error",
          .str "Task already marked complete in this turn. Ignoring duplicate call.")])] ∧
    "Task already marked complete in this turn. Ignoring duplicate call." ≠
      "Task already marked complete in this turn." := by
  refine ⟨by decide, by decide⟩

/-- Claim C2 (amended): within a turn, once `taskCompleted` is set every
further `complete_task` call only appends one response part carrying the
duplicate-call error (whose exact text ends in "Ignoring duplicate call.")
and the corresponding error event; it does not change `taskCompleted` or the
submitted output, and a turn whose processing ends with `taskCompleted` still
stops with reason GOAL. -/
theorem C2_duplicate_complete_task (env : AgentEnv) (promptId : String) (s : ProcState)
    (i : Nat) (c : FunctionCallM)
    (hName : c.name = TASK_COMPLETE_TOOL_NAME)
    (hTC : s.taskCompleted = true) :
    stepCall env promptId s (i, c) =
      { s with
        syncResponseParts := s.syncResponseParts ++
          [GPart.functionResponse TASK_COMPLETE_TOOL_NAME (callIdOf promptId (i, c))
            (.obj [("error", .str dupCompleteError)])],
        events := s.events ++
          [ActivityEvent.toolCallStart c.name,
           ActivityEvent.errorEv "tool_call" (some c.name) dupCompleteError] } ∧
    dupCompleteError =
      "Task already marked complete in this turn. Ignoring duplicate call." ∧
    (∀ (calls : List FunctionCallM) (text : String), calls ≠ [] →
      (processFunctionCalls env calls promptId).taskCompleted = true →
      ∃ res, executeTurnModel env calls text promptId =
        AgentTurnResult.stop .GOAL (some res)) := by
  refine ⟨?_, rfl, ?_⟩
  · simp [stepCall, hName, hTC, callIdOf]
  · intro calls text hne hTCr
    simp only [executeTurnModel]
    rw [if_neg (by simpa using hne), if_pos hTCr]
    exact ⟨_, rfl⟩

/-- Claim C2, witness: a duplicate `complete_task` call on an
already-completed state. -/
theorem C2_duplicate_complete_task_witness :
    stepCall testEnvNoOut "p" sCompleted
        (1, { id := none, name := "complete_task", args := none }) =
      { sCompleted with
        syncResponseParts := sCompleted.syncResponseParts ++
          [GPart.functionResponse TASK_COMPLETE_TOOL_NAME
            (callIdOf "p" (1, { id := none, name := "complete_task", args := none }))
            (.obj [("error", .str dupCompleteError)])],
        events := sCompleted.events ++
          [ActivityEvent.toolCallStart "complete_task",
           ActivityEvent.errorEv "tool_call" (some "complete_task") dupCompleteError] } ∧
    dupCompleteError =
      "Task already marked complete in this turn. Ignoring duplicate call." ∧
    (∀ (calls : List FunctionCallM) (text : String), calls ≠ [] →
      (processFunctionCalls testEnvNoOut calls "p").taskCompleted = true →
      ∃ res, executeTurnModel testEnvNoOut calls text "p" =
        AgentTurnResult.stop .GOAL (some res)) :=
  C2_duplicate_complete_task testEnvNoOut "p" sCompleted 1
    { id := none, name := "complete_task", args := none } rfl rfl

/-! ### Claim C7: unauthorized tool calls -/

/-- Claim C7: an invocation whose name is neither `complete_task` nor in the
filtered registry appends exactly one response part carrying the
`Unauthorized tool call` error and schedules nothing; consequently every
request that reaches the tool layer (`executeToolCall`) carries a registered
tool name, so the layer is never invoked for an unauthorized call. -/
theorem C7_unauthorized_rejected (env : AgentEnv) (promptId : String) (s : ProcState)
    (i : Nat) (c : FunctionCallM)
    (hName : c.name ≠ TASK_COMPLETE_TOOL_NAME)
    (hReg : c.name ∉ env.registryToolNames) :
    stepCall env promptId s (i, c) =
      { s with
        syncResponseParts := s.syncResponseParts ++
          [GPart.functionResponse c.name (callIdOf promptId (i, c))
            (.obj [("error", .str (unauthorizedError c.name))])],
        events := s.events ++
          [ActivityEvent.toolCallStart c.name,
           ActivityEvent.errorEv "tool_call_unauthorized" (some c.name)
             (unauthorizedError c.name)] } ∧
    (stepCall env promptId s (i, c)).toolExecutionRequests = s.toolExecutionRequests ∧
    (∀ (calls : List FunctionCallM) (req : ToolCallRequestInfo),
      req ∈ (processFunctionCalls env calls promptId).executedRequests →
      req.name ∈ env.registryToolNames) := by
  refine ⟨?_, ?_, ?_⟩
  · simp [stepCall, hName, hReg, callIdOf]
  · simp [stepCall, hName, hReg]
  · intro calls req hmem
    obtain ⟨hreq, -, -⟩ := foldl_stepCall_proj env promptId calls.enum
      { taskCompleted := false, submittedOutput := none, syncResponseParts := [],
        toolExecutionRequests := [], events := [] }
    simp only [processFunctionCalls] at hmem
    rw [hreq] at hmem
    simp only [List.nil_append, List.mem_map] at hmem
    obtain ⟨ic, hic, hreq2⟩ := hmem
    rw [List.mem_filter] at hic
    have hsync : isSyncHandled env ic.2 = false := by
      cases hx : isSyncHandled env ic.2 with
      | false => rfl
      | true => rw [hx] at hic; simp at hic
    simp only [isSyncHandled, Bool.or_eq_false_iff, Bool.not_eq_false] at hsync
    obtain ⟨hn, hcontains⟩ := hsync
    have hnn : ic.2.name ≠ TASK_COMPLETE_TOOL_NAME := by simpa using hn
    have himp : ¬ic.2.name = TASK_COMPLETE_TOOL_NAME → ic.2.name ∈ env.registryToolNames := by
      simpa using hcontains
    rw [← hreq2]
    exact himp hnn

/-- Claim C7, witness: a call to an unregistered tool in the shell-only
context. -/
theorem C7_unauthorized_rejected_witness :
    stepCall testEnvTools "p" procInit
        (0, { id := none, name := "rm_rf", args := none }) =
      { procInit with
        syncResponseParts := procInit.syncResponseParts ++
          [GPart.functionResponse "rm_rf"
            (callIdOf "p" (0, { id := none, name := "rm_rf", args := none }))
            (.obj [("error", .str (unauthorizedError "rm_rf"))])],
        events := procInit.events ++
          [ActivityEvent.toolCallStart "rm_rf",
           ActivityEvent.errorEv "tool_call_unauthorized" (some "rm_rf")
             (unauthorizedError "rm_rf")] } ∧
    (stepCall testEnvTools "p" procInit
        (0, { id := none, name := "rm_rf", args := none })).toolExecutionRequests =
      procInit.toolExecutionRequests ∧
    (∀ (calls : List FunctionCallM) (req : ToolCallRequestInfo),
      req ∈ (processFunctionCalls testEnvTools calls "p").executedRequests →
      req.name ∈ testEnvTools.registryToolNames) :=
  C7_unauthorized_rejected testEnvTools "p" procInit 0
    { id := none, name := "rm_rf", args := none } (by decide) (by decide)

/-! ### Claim C6: string outputs are returned raw -/

/-- Claim C6, counterexample: with the `\x7bResponse: string\x7d` output
specification, `complete_task(\x7bResponse: "done"\x7d)` makes the turn stop
with GOAL and final result `"done"` — the raw string — and the run returns
`"done"`, not `JSON.stringify(\x7bResponse: "done"\x7d, null, 2)`. -/
theorem C6_string_output_counterexample :
    executeTurnModel testEnvOut
        [{ id := none, name := "complete_task",
           args := some (.obj [("Response", .str "done")]) }] "" "p" =
      AgentTurnResult.stop .GOAL (some "done") ∧
    runFinalize .GOAL (some "done") = ("done", .GOAL) ∧
    jsonStringifyPretty (.obj [("Response", .str "done")]) =
      "\x7b\n  \"Response\": \"done\"\n\x7d" ∧
    "done" ≠ "\x7b\n  \"Response\": \"done\"\n\x7d" := by
  refine ⟨by decide, by decide, by decide, by decide⟩

/-- Claim C6 (amended): when the submitted output value is a string, the
executor stores it raw (`submittedOutput = the string itself`, no
`JSON.stringify` formatting), the turn stops with GOAL carrying that string,
and the run returns it unchanged. -/
theorem C6_string_output_raw (env : AgentEnv) (oc : OutputConfig) (promptId text : String)
    (c : FunctionCallM) (sv : String) (d : JValue)
    (hOC : env.outputConfig = some oc)
    (hPO : env.processOutput = none)
    (hName : c.name = TASK_COMPLETE_TOOL_NAME)
    (hGet : jget (c.args.getD (.obj [])) oc.outputName = some (.str sv))
    (hSP : oc.safeParse (.str sv) = .success d)
    (hsv : sv ≠ "Task completed successfully.")
    (hsv2 : sv ≠ "") :
    executeTurnModel env [c] text promptId = AgentTurnResult.stop .GOAL (some sv) ∧
    runFinalize .GOAL (some sv) = (sv, .GOAL) := by
  have h1 : (processFunctionCalls env [c] promptId).taskCompleted = true := by
    simp only [processFunctionCalls, List.enum, List.enumFrom, List.foldl_cons,
      List.foldl_nil]
    simp [stepCall, hName, hOC, hGet, hSP]
  have h2 : (processFunctionCalls env [c] promptId).submittedOutput = some sv := by
    simp only [processFunctionCalls, List.enum, List.enumFrom, List.foldl_cons,
      List.foldl_nil]
    simp [stepCall, hName, hOC, hGet, hSP, hPO]
  constructor
  · simp only [executeTurnModel]
    rw [if_neg (by simp), if_pos h1]
    simp [h2, hsv]
  · simp [runFinalize, orDefault, hsv2]

/-- Claim C6, witness: the amended theorem at the counterexample's input. -/
theorem C6_string_output_raw_witness :
    executeTurnModel testEnvOut
        [{ id := none, name := "complete_task",
           args := some (.obj [("Response", .str "done")]) }] "t" "p" =
      AgentTurnResult.stop .GOAL (some "done") ∧
    runFinalize .GOAL (some "done") = ("done", .GOAL) :=
  C6_string_output_raw testEnvOut respOutputConfig "p" "t"
    { id := none, name := "complete_task", args := some (.obj [("Response", .str "done")]) }
    "done" (.str "done") rfl rfl rfl rfl rfl (by decide) (by decide)

/-! ### Claim C1: response parts per invocation and their order -/

/-- Claim C1, counterexample to the ordering half: with `shell` registered,
the turn `[shell(...), unknown_tool(...)]` produces the unauthorized response
for invocation 1 *before* the tool response for invocation 0 — synchronously
handled calls are recorded ahead of all scheduled executions, so the response
order is not the invocation order. -/
theorem C1_order_counterexample :
    (processFunctionCalls testEnvTools
        [{ id := none, name := "shell", args := some (.obj []) },
         { id := none, name := "unknown_tool", args := some (.obj []) }]
        "p").nextMessage.parts.length = 2 ∧
    partCallIds (processFunctionCalls testEnvTools
        [{ id := none, name := "shell", args := some (.obj []) },
         { id := none, name := "unknown_tool", args := some (.obj []) }]
        "p").nextMessage.parts = ["p-1", "p-0"] ∧
    (["p-1", "p-0"] : List String) ≠ ["p-0", "p-1"] := by
  refine ⟨by decide, by decide, by decide⟩

/-- Claim C1 (amended): when every tool-layer answer is a single function
response under the request's call id, the next user message holds exactly one
tool-response part per invocation (rejected, unauthorized and
duplicate-completion calls included), and the parts are grouped: first the
synchronously handled invocations in invocation order, then the scheduled
(authorized) invocations in invocation order — not the plain invocation
order, and never the completion order. -/
theorem C1_response_parts (env : AgentEnv) (promptId : String)
    (calls : List FunctionCallM)
    (H : ∀ req, ∃ nm resp, (env.executeToolCall req).responseParts =
      [GPart.functionResponse nm req.callId resp]) :
    (processFunctionCalls env calls promptId).nextMessage.parts.length = calls.length ∧
    partCallIds (processFunctionCalls env calls promptId).nextMessage.parts =
      ((calls.enum.filter (fun ic => isSyncHandled env ic.2)).map (callIdOf promptId)) ++
      ((calls.enum.filter (fun ic => !(isSyncHandled env ic.2))).map (callIdOf promptId)) :=
  processFunctionCalls_parts env promptId calls H

/-- Claim C1, witness: the amended theorem at the counterexample's turn. -/
theorem C1_response_parts_witness :
    (processFunctionCalls testEnvTools
        [{ id := none, name := "shell", args := some (.obj []) },
         { id := none, name := "unknown_tool", args := some (.obj []) }]
        "p").nextMessage.parts.length =
      ([{ id := none, name := "shell", args := some (.obj []) },
        { id := none, name := "unknown_tool", args := some (.obj []) }] :
          List FunctionCallM).length ∧
    partCallIds (processFunctionCalls testEnvTools
        [{ id := none, name := "shell", args := some (.obj []) },
         { id := none, name := "unknown_tool", args := some (.obj []) }]
        "p").nextMessage.parts =
      ((([{ id := none, name := "shell", args := some (.obj []) },
           { id := none, name := "unknown_tool", args := some (.obj []) }] :
             List FunctionCallM).enum.filter
            (fun ic => isSyncHandled testEnvTools ic.2)).map (callIdOf "p")) ++
      ((([{ id := none, name := "shell", args := some (.obj []) },
           { id := none, name := "unknown_tool", args := some (.obj []) }] :
             List FunctionCallM).enum.filter
            (fun ic => !(isSyncHandled testEnvTools ic.2))).map (callIdOf "p")) :=
  C1_response_parts testEnvTools "p"
    [{ id := none, name := "shell", args := some (.obj []) },
     { id := none, name := "unknown_tool", args := some (.obj []) }]
    (fun req => ⟨req.name, .obj [("output", .str "ok")], rfl⟩)
